import Mathlib

/-
  Verification development for the Lantern ingest hub
  (app/services/extract.py, app/services/ingest.py).

  Strings are modelled as lists of characters (Python str semantics over the
  ASCII subset exercised by the heuristics: lower/upper case folding, the
  whitespace class of str.strip and the regex class for a whitespace
  character, word characters for word boundaries).  Each Python regular
  expression used by extract.py is embedded as a specialised executable
  search function implementing the leftmost-match and greedy-backtracking
  semantics of re.search for that concrete pattern.
-/

namespace Hub

/-- A Python string, modelled as a list of characters. -/
abbrev Str := List Char

/-- ASCII whitespace, the characters matched by str.strip() and by the regex
whitespace class over the inputs considered here. -/
def isPySpace (c : Char) : Bool :=
  c == ' ' || c == '\t' || c == '\n' || c == '\r' ||
  c == Char.ofNat 11 || c == Char.ofNat 12

/-- ASCII decimal digit, the regex digit class. -/
def isAsciiDigit (c : Char) : Bool := '0' ≤ c && c ≤ '9'

/-- ASCII uppercase letter, the character class of two-letter state codes. -/
def isAsciiUpper (c : Char) : Bool := 'A' ≤ c && c ≤ 'Z'

/-- ASCII lowercase letter. -/
def isAsciiLower (c : Char) : Bool := 'a' ≤ c && c ≤ 'z'

/-- A regex word character (letter, digit or underscore), used for the
word-boundary assertions of the street-address pattern. -/
def isWordChar (c : Char) : Bool :=
  isAsciiUpper c || isAsciiLower c || isAsciiDigit c || c == '_'

/-- ASCII case folding to lowercase (str.lower / re.IGNORECASE). -/
def toLowerChar (c : Char) : Char :=
  if isAsciiUpper c then Char.ofNat (c.toNat + 32) else c

/-- ASCII case folding to uppercase (str.upper). -/
def toUpperChar (c : Char) : Char :=
  if isAsciiLower c then Char.ofNat (c.toNat - 32) else c

/-- str.lower() over a whole string. -/
def lowerStr (s : Str) : Str := s.map toLowerChar

/-- str.upper() over a whole string. -/
def upperStr (s : Str) : Str := s.map toUpperChar

/-- str.strip(): remove leading and trailing whitespace. -/
def pyStrip (s : Str) : Str :=
  ((s.dropWhile isPySpace).reverse.dropWhile isPySpace).reverse

/-- str.splitlines(), splitting at the line breaks that occur in the inputs
considered here (a CR-LF pair counts as a single break, and a trailing
break does not produce a final empty line). -/
def pySplitlines : Str → List Str
  | [] => []
  | '\r' :: '\n' :: rest =>
      [] :: pySplitlines rest
  | '\r' :: rest => [] :: pySplitlines rest
  | '\n' :: rest => [] :: pySplitlines rest
  | c :: rest =>
      match pySplitlines rest with
      | [] => [[c]]
      | l :: ls => (c :: l) :: ls

/-- The preprocessing step of _extract_fields_from_text: split the OCR text
into lines, strip each line, and keep only the non-empty results. -/
def preprocessLines (text : Str) : List Str :=
  ((pySplitlines text).map pyStrip).filter (fun l => !l.isEmpty)

/-- Helper for str.split(): accumulate the current word (reversed) while
scanning the string. -/
def pySplitWsAux : Str → Str → List Str
  | [], acc => if acc.isEmpty then [] else [acc.reverse]
  | c :: rest, acc =>
      if isPySpace c then
        if acc.isEmpty then pySplitWsAux rest [] else acc.reverse :: pySplitWsAux rest []
      else pySplitWsAux rest (c :: acc)

/-- str.split() with no separator: the list of maximal runs of
non-whitespace characters. -/
def pySplitWs (s : Str) : List Str := pySplitWsAux s []

/-- str.title() over the ASCII letters: a letter directly after another
letter is lowercased, any other letter is uppercased. -/
def pyTitleAux : Bool → Str → Str
  | _, [] => []
  | prevAlpha, c :: rest =>
      let alpha := isAsciiUpper c || isAsciiLower c
      let c' := if alpha then (if prevAlpha then toLowerChar c else toUpperChar c) else c
      c' :: pyTitleAux alpha rest

/-- str.title(). -/
def pyTitle (s : Str) : Str := pyTitleAux false s

/-- Index of the leftmost occurrence of pat as a contiguous sublist of s,
starting the count at i (the helper behind every substring search). -/
def findFrom (pat : Str) : Str → Nat → Option Nat
  | [], i => if pat.isEmpty then some i else none
  | s@(_ :: rest), i => if pat.isPrefixOf s then some i else findFrom pat rest (i + 1)

/-- Whether pat occurs as a contiguous substring of s. -/
def containsSub (pat s : Str) : Bool := (findFrom pat s 0).isSome

/-! ## FIELD_PATTERNS: the label regexes of extract.py

Every simple pattern has the shape LABEL folowed by a run of colon or
whitespace characters and a capture of the rest of the line, searched
case-insensitively; the postal-code pattern uses the alternation of the
labels zip code and zip. -/

/-- The keys of the FIELD_PATTERNS table in extract.py. -/
inductive FieldKey
  | route | site_name | address | city | postal_code
  | service_days | time_open | time_closed | notes
deriving Repr, DecidableEq

/-- All keys, in the insertion (iteration) order of the FIELD_PATTERNS dict. -/
def allFieldKeys : List FieldKey :=
  [.route, .site_name, .address, .city, .postal_code,
   .service_days, .time_open, .time_closed, .notes]

/-- The literal label token of each pattern (for postal_code, the leading
token zip shared by both alternatives of the alternation). -/
def labelToken : FieldKey → Str
  | .route => "route".toList
  | .site_name => "slang name".toList
  | .address => "address".toList
  | .city => "city".toList
  | .postal_code => "zip".toList
  | .service_days => "service days".toList
  | .time_open => "time open".toList
  | .time_closed => "time closed".toList
  | .notes => "special notes".toList

/-- The long alternative zip code of the postal-code pattern. -/
def zipCodeToken : Str := "zip code".toList

/-- A character consumed by the separator part of a label pattern
(a colon or a whitespace character, repeated any number of times). -/
def isLabelSep (c : Char) : Bool := c == ':' || isPySpace c

/-- re.search of a simple label pattern against a line: find the leftmost
case-insensitive occurrence of the label, greedily skip the separator run,
and capture the remainder of the line. -/
def labelSearch (label : Str) (line : Str) : Option Str :=
  match findFrom label (lowerStr line) 0 with
  | none => none
  | some i => some ((line.drop (i + label.length)).dropWhile isLabelSep)

/-- re.search of the postal-code pattern: at the leftmost occurrence of zip
the alternation prefers the longer alternative zip code when it matches
there; the remainder capture is group 2. -/
def postalLabelSearch (line : Str) : Option Str :=
  let low := lowerStr line
  match findFrom (labelToken .postal_code) low 0 with
  | none => none
  | some i =>
      let len := if zipCodeToken.isPrefixOf (low.drop i) then zipCodeToken.length
                 else (labelToken .postal_code).length
      some ((line.drop (i + len)).dropWhile isLabelSep)

/-- FIELD_PATTERNS[key].search(line), returning the value capture group on a
match (group 2 for postal_code, group 1 otherwise). -/
def fieldSearch : FieldKey → Str → Option Str
  | .postal_code, line => postalLabelSearch line
  | k, line => labelSearch (labelToken k) line

/-- Whether a line matches any recognized field label pattern: the stopping
rule shared by every collect-until-next-label operation. -/
def stopsAny (line : Str) : Bool :=
  allFieldKeys.any (fun k => (fieldSearch k line).isSome)

/-- The loop body of _collect_block_lines and _collect_following_lines:
collect lines until one matches any recognized field pattern. -/
def collectUntilLabel : List Str → List Str
  | [] => []
  | l :: rest => if stopsAny l then [] else l :: collectUntilLabel rest

/-- _collect_block_lines: the lines following start_index up to (excluding)
the next label line. -/
def collectBlockLines (lines : List Str) (startIndex : Nat) : List Str :=
  collectUntilLabel (lines.drop startIndex)

/-- join with a single-space separator (the join used for spillover values
and for the whole-text salt candidate). -/
def joinSpace (ls : List Str) : Str := List.intercalate (' ' :: []) ls

/-- _collect_following_lines: the spillover value made of the collected
lines joined by spaces and stripped, or None when that is empty. -/
def collectFollowingLines (lines : List Str) (startIndex : Nat) : Option Str :=
  let value := pyStrip (joinSpace (collectBlockLines lines startIndex))
  if value.isEmpty then none else some value

/-! ## The STATE ZIP pattern

re.search of two uppercase letters, at least one whitespace character and
five digits (case-sensitive).  A greedy whitespace run followed by a digit
requirement admits no backtracking, so the search reduces to a left-to-right
scan with a maximal whitespace run at each start. -/

/-- Attempt of the STATE ZIP pattern at the start of the suffix s, returning
the groups (state letters, zip digits). -/
def statePostalAt (s : Str) : Option (Str × Str) :=
  match s with
  | a :: b :: rest =>
      if isAsciiUpper a && isAsciiUpper b then
        let ws := rest.takeWhile isPySpace
        let afterWs := rest.dropWhile isPySpace
        let zip := afterWs.take 5
        if !ws.isEmpty && zip.length == 5 && zip.all isAsciiDigit then
          some (a :: b :: [], zip)
        else none
      else none
  | _ => none

/-- Leftmost match of the STATE ZIP pattern within a line. -/
def findStatePostal : Str → Option (Str × Str)
  | [] => none
  | s@(_ :: rest) =>
      match statePostalAt s with
      | some r => some r
      | none => findStatePostal rest

/-- The formatted postal candidate built from a STATE ZIP match. -/
def statePostalValue (line : Str) : Option Str :=
  (findStatePostal line).map (fun g => g.1 ++ (' ' :: []) ++ g.2)

/-! ## The street-address pattern of _find_street_line

re.search, case-insensitive, of: two to five digits, at least one whitespace
character, at least one arbitrary character, a word boundary, one of the
street-suffix tokens, a word boundary, then an optional period and an
optional comma.  Backtracking makes the digit run necessarily maximal (a
shorter run is followed by a digit, failing the whitespace requirement), the
whitespace run effectively maximal up to allowing the dot-all run to be
skipped entirely, and the greedy dot-all run places the suffix token at the
rightmost feasible position; the alternation tries the suffix tokens in
written order and retries on a failing trailing word boundary. -/

/-- The street-suffix alternation, in the order written in the pattern. -/
def streetSuffixes : List Str :=
  ["rd".toList, "road".toList, "st".toList, "street".toList, "ave".toList,
   "avenue".toList, "blvd".toList, "boulevard".toList, "dr".toList,
   "drive".toList, "ln".toList, "lane".toList, "ct".toList, "court".toList]

/-- First suffix token (in alternation order) matching at position p of the
lowered line with a word boundary after it; returns the token length. -/
def suffixAt (low : Str) (p : Nat) : Option Nat :=
  streetSuffixes.findSome? (fun t =>
    if t.isPrefixOf (low.drop p) &&
       (match low.get? (p + t.length) with
        | none => true
        | some c => !isWordChar c) then
      some t.length
    else none)

/-- Scan for the suffix-token position from p downward to pmin: the order in
which the backtracking dot-all run proposes positions. -/
def findStreetSuffixPos (low : Str) (pmin : Nat) : Nat → Option (Nat × Nat)
  | 0 => none
  | p + 1 =>
      if p + 1 < pmin then none
      else
        match low.get? p with
        | some c =>
            if !isWordChar c then
              match suffixAt low (p + 1) with
              | some tl => some (p + 1, tl)
              | none => findStreetSuffixPos low pmin p
            else findStreetSuffixPos low pmin p
        | none => findStreetSuffixPos low pmin p

/-- Attempt of the street pattern at start index i; on success returns the
end index (exclusive) of the whole match. -/
def streetMatchEndAt (low : Str) (i : Nat) : Option Nat :=
  let r := ((low.drop i).takeWhile isAsciiDigit).length
  if r < 2 ∨ 5 < r then none
  else
    let w := ((low.drop (i + r)).takeWhile isPySpace).length
    if w = 0 then none
    else
      -- the dot-all run must cover at least one character, so the suffix can
      -- start no earlier than one past the whitespace run taken at its
      -- maximum, except that giving one whitespace character back to the
      -- dot-all run also allows the position directly after the run
      let pmin := if 2 ≤ w then i + r + w else i + r + w + 1
      match findStreetSuffixPos low pmin low.length with
      | none => none
      | some (p, tl) =>
          let e1 := p + tl
          let e2 := if low.get? e1 == some '.' then e1 + 1 else e1
          let e3 := if low.get? e2 == some ',' then e2 + 1 else e2
          some e3

/-- Leftmost-start search of the street pattern over the whole line,
walking the suffixes of the line while tracking the absolute start index;
_find_street_line returns match.group(0).strip(). -/
def findStreetAux (line low : Str) : List Char → Nat → Option Str
  | [], _ => none
  | _ :: rest, i =>
      match streetMatchEndAt low i with
      | some e => some (pyStrip ((line.drop i).take (e - i)))
      | none => findStreetAux line low rest (i + 1)

/-- _find_street_line. -/
def findStreetLine (line : Str) : Option Str :=
  findStreetAux line (lowerStr line) line 0

/-! ## _extract_address_block -/

/-- The scan of _extract_address_block, walking the suffix of the line list
starting at index i. -/
def extractAddressBlockAux (lines : List Str) :
    List Str → Nat → Option Str × Option Str × Option Str
  | [], _ => (none, none, none)
  | line :: rest, i =>
      if (fieldSearch .address line).isSome then
        let block := collectBlockLines lines (i + 1)
        let address := block.head?
        let city := block.get? 1
        let postal := match block.get? 2 with
          | some postalLine => statePostalValue postalLine
          | none => none
        (address, city, postal)
      else
        match findStreetLine line with
        | some a =>
            let city := lines.get? (i + 1)
            let postal := match lines.get? (i + 2) with
              | some postalLine => statePostalValue postalLine
              | none => none
            (some a, city, postal)
        | none => extractAddressBlockAux lines rest (i + 1)

/-- _extract_address_block. -/
def extractAddressBlock (lines : List Str) : Option Str × Option Str × Option Str :=
  extractAddressBlockAux lines lines 0

/-! ## _normalize_postal_code

The source deletes occurrences of the regex written as a raw string with a
doubled backslash before D, which matches the literal two-character sequence
backslash D, then keeps the trailing five characters. -/

/-- re.sub of the literal two-character sequence backslash D with the empty
string (leftmost, non-overlapping). -/
def stripBackslashD : Str → Str
  | '\\' :: 'D' :: rest => stripBackslashD rest
  | c :: rest => c :: stripBackslashD rest
  | [] => []

/-- _normalize_postal_code. -/
def normalizePostalCode : Option Str → Option Str
  | none => none
  | some v =>
      if v.isEmpty then none
      else
        let digits := stripBackslashD v
        let kept := digits.drop (digits.length - 5)
        if kept.isEmpty then none else some kept

/-! ## _extract_field_from_lines (route, slang name, special notes) -/

/-- The scan of _extract_field_from_lines, walking the suffix of the line
list starting at index i: at the first line whose pattern matches, return
the stripped inline value when non-empty, else the spillover of the
following lines. -/
def extractFieldAux (key : FieldKey) (lines : List Str) : List Str → Nat → Option Str
  | [], _ => none
  | line :: rest, i =>
      match fieldSearch key line with
      | some v =>
          let value := pyStrip v
          if !value.isEmpty then some value
          else collectFollowingLines lines (i + 1)
      | none => extractFieldAux key lines rest (i + 1)

/-- _extract_field_from_lines. -/
def extractFieldFromLines (lines : List Str) (key : FieldKey) : Option Str :=
  extractFieldAux key lines lines 0

/-! ## _extract_service_days -/

/-- The weekday abbreviations of the service-days pattern, in alternation
order. -/
def dayTokens : List Str :=
  ["mon".toList, "tue".toList, "wed".toList, "thu".toList,
   "fri".toList, "sat".toList, "sun".toList]

/-- Case-insensitive match of a weekday abbreviation at the start of the
suffix s, returning the matched text in its original case. -/
def dayAt (s : Str) : Option Str :=
  dayTokens.findSome? (fun t =>
    if t.isPrefixOf (lowerStr s) then some (s.take 3) else none)

/-- Leftmost match position of a weekday abbreviation: returns the matched
text and the rest of the string after it. -/
def findDay : Str → Option (Str × Str)
  | [] => none
  | s@(_ :: rest) =>
      match dayAt s with
      | some d => some (d, s.drop 3)
      | none => findDay rest

/-- The value produced from the candidate line after a service-days label:
one weekday or a hyphen-joined pair, title-cased (None when the candidate
has no weekday). -/
def serviceDaysValue (candidate : Str) : Option Str :=
  match findDay candidate with
  | none => none
  | some (d1, rest) =>
      let rest2 := rest.dropWhile isPySpace
      match rest2 with
      | '-' :: rest3 =>
          match dayAt (rest3.dropWhile isPySpace) with
          | some d2 => some (pyTitle (d1 ++ ('-' :: []) ++ d2))
          | none => some (pyTitle d1)
      | _ => some (pyTitle d1)

/-- _extract_service_days: at each service-days label line, examine the next
line for a weekday pattern; keep scanning on a miss.  Walks the suffix of
the line list starting at index i. -/
def extractServiceDaysAux (lines : List Str) : List Str → Nat → Option Str
  | [], _ => none
  | line :: rest, i =>
      let next :=
        if (fieldSearch .service_days line).isSome then
          match lines.get? (i + 1) with
          | some candidate => serviceDaysValue candidate
          | none => none
        else none
      match next with
      | some v => some v
      | none => extractServiceDaysAux lines rest (i + 1)

/-- _extract_service_days. -/
def extractServiceDays (lines : List Str) : Option Str :=
  extractServiceDaysAux lines lines 0

/-! ## _extract_time_value and _normalize_time_value -/

/-- One of the meridian letters A P a p. -/
def isAP (c : Char) : Bool := c == 'A' || c == 'P' || c == 'a' || c == 'p'

/-- One of the letters M m. -/
def isM (c : Char) : Bool := c == 'M' || c == 'm'

/-- Attempt of the colon time pattern (one or two digits, colon, two digits,
optional whitespace, meridian letters) at the start of the suffix s; the
two-digit hour is preferred by greediness.  Returns the matched text. -/
def timeColonAt (s : Str) : Option Str :=
  let two :=
    match s with
    | a :: b :: ':' :: c :: d :: rest =>
        if isAsciiDigit a && isAsciiDigit b && isAsciiDigit c && isAsciiDigit d then
          let ws := rest.takeWhile isPySpace
          match rest.dropWhile isPySpace with
          | p :: m :: _ =>
              if isAP p && isM m then
                some (a :: b :: ':' :: c :: d :: (ws ++ (p :: m :: [])))
              else none
          | _ => none
        else none
    | _ => none
  match two with
  | some r => some r
  | none =>
      match s with
      | a :: ':' :: c :: d :: rest =>
          if isAsciiDigit a && isAsciiDigit c && isAsciiDigit d then
            let ws := rest.takeWhile isPySpace
            match rest.dropWhile isPySpace with
            | p :: m :: _ =>
                if isAP p && isM m then
                  some (a :: ':' :: c :: d :: (ws ++ (p :: m :: [])))
                else none
            | _ => none
          else none
      | _ => none

/-- Leftmost match of the colon time pattern. -/
def findTimeColon : Str → Option Str
  | [] => none
  | s@(_ :: rest) =>
      match timeColonAt s with
      | some r => some r
      | none => findTimeColon rest

/-- Attempt of the bare time pattern (one or two digits, optional
whitespace, meridian letters) at the start of the suffix s; returns the
groups (digits, meridian). -/
def timeBareAt (s : Str) : Option (Str × Str) :=
  match s with
  | a :: rest =>
      if isAsciiDigit a then
        let two :=
          match rest with
          | b :: rest2 =>
              if isAsciiDigit b then
                match rest2.dropWhile isPySpace with
                | p :: m :: _ =>
                    if isAP p && isM m then some ((a :: b :: []), (p :: m :: [])) else none
                | _ => none
              else none
          | [] => none
        match two with
        | some r => some r
        | none =>
            match rest.dropWhile isPySpace with
            | p :: m :: _ =>
                if isAP p && isM m then some ((a :: []), (p :: m :: [])) else none
            | _ => none
      else none
  | [] => none

/-- Leftmost match of the bare time pattern. -/
def findTimeBare : Str → Option (Str × Str)
  | [] => none
  | s@(_ :: rest) =>
      match timeBareAt s with
      | some r => some r
      | none => findTimeBare rest

/-- str.replace of every vertical bar with a space followed by str.replace
of every lowercase letter l with the digit 1. -/
def timeCleaned (value : Str) : Str :=
  (value.map (fun c => if c == '|' then ' ' else c)).map
    (fun c => if c == 'l' then '1' else c)

/-- _normalize_time_value. -/
def normalizeTimeValue (value : Str) : Option Str :=
  let cleaned := timeCleaned value
  match findTimeColon cleaned with
  | some m => some ((upperStr m).filter (fun c => c != ' '))
  | none =>
      match findTimeBare cleaned with
      | some (g1, g2) => some (g1 ++ (' ' :: []) ++ upperStr g2)
      | none =>
          let t := pyStrip cleaned
          if t.isEmpty then none else some t

/-- The scan of _extract_time_value from index i: at a label line, normalize
the non-empty inline value, else the next line when one exists; with a
matching label, an empty inline value and no next line, keep scanning. -/
def extractTimeAux (key : FieldKey) (lines : List Str) : List Str → Nat → Option Str
  | [], _ => none
  | line :: rest, i =>
      match fieldSearch key line with
      | some g1 =>
          let value := pyStrip g1
          if !value.isEmpty then normalizeTimeValue value
          else
            match lines.get? (i + 1) with
            | some nextLine => normalizeTimeValue nextLine
            | none => extractTimeAux key lines rest (i + 1)
      | none => extractTimeAux key lines rest (i + 1)

/-- _extract_time_value. -/
def extractTimeValue (lines : List Str) (key : FieldKey) : Option Str :=
  extractTimeAux key lines lines 0

/-! ## The ExtractedFields record -/

/-- The ExtractedFields dataclass; every field defaults to absent.  The GPS
fields carry exact rationals in place of the floating-point values of the
source (none of the claims concerns rounding). -/
structure ExtractedFields where
  route : Option Str := none
  site_name : Option Str := none
  address : Option Str := none
  city : Option Str := none
  postal_code : Option Str := none
  gps_latitude : Option ℚ := none
  gps_longitude : Option ℚ := none
  service_days : Option Str := none
  time_open : Option Str := none
  time_closed : Option Str := none
  notes : Option Str := none
  salt_product : Option Str := none
  salt_amount : Option Str := none
  salt_unit : Option Str := none
deriving Repr, DecidableEq

/-! ## _populate_salt_info -/

/-- The product tokens of the salt pattern, in alternation order. -/
def productTokens : List Str :=
  ["salt".toList, "eco2".toList, "reliable blue".toList]

/-- The unit tokens of the salt pattern, in alternation order. -/
def unitTokens : List Str := ["bags".toList, "scoops".toList]

/-- Case-insensitive match of a token list at the start of the suffix s,
returning the matched text (original case) and the rest. -/
def tokenAt (tokens : List Str) (s : Str) : Option (Str × Str) :=
  tokens.findSome? (fun t =>
    if t.isPrefixOf (lowerStr s) then some (s.take t.length, s.drop t.length) else none)

/-- Leftmost match of a product token. -/
def findProduct : Str → Option (Str × Str)
  | [] => none
  | s@(_ :: rest) =>
      match tokenAt productTokens s with
      | some r => some r
      | none => findProduct rest

/-- The optional numeric amount (digits with an optional fractional part) at
the start of the suffix s: the greedy digit run, and a dot only together
with at least one further digit.  Returns the matched text (or none) and
the rest. -/
def numberAt (s : Str) : Option Str × Str :=
  let ds := s.takeWhile isAsciiDigit
  if ds.isEmpty then (none, s)
  else
    let rest := s.drop ds.length
    match rest with
    | '.' :: r2 =>
        let fs := r2.takeWhile isAsciiDigit
        if fs.isEmpty then (some ds, rest)
        else (some (ds ++ ('.' :: []) ++ fs), r2.drop fs.length)
    | _ => (some ds, rest)

/-- re.search of the salt pattern: at the leftmost product token, greedily
skip whitespace, take an optional numeric amount, skip whitespace, and take
an optional unit token.  Returns the three groups. -/
def saltSearch (candidate : Str) : Option (Str × Option Str × Option Str) :=
  match findProduct candidate with
  | none => none
  | some (product, rest) =>
      let (amount, rest2) := numberAt (rest.dropWhile isPySpace)
      let unit := (tokenAt unitTokens (rest2.dropWhile isPySpace)).map (fun r => r.1)
      some (product, amount, unit)

/-- re.search of the standalone quantity pattern (a mandatory numeric
amount, optional whitespace, an optional unit token): leftmost digit wins. -/
def findQuantity : Str → Option (Str × Option Str)
  | [] => none
  | s@(c :: rest) =>
      if isAsciiDigit c then
        let (amount, rest2) := numberAt s
        let unit := (tokenAt unitTokens (rest2.dropWhile isPySpace)).map (fun r => r.1)
        some (amount.getD [], unit)
      else findQuantity rest

/-- The line containing salt info or sidewalk info (substring of the lowered
line), with its index: the loop locating salt_line in _populate_salt_info. -/
def findSaltLineAux : List Str → Nat → Option (Nat × Str)
  | [], _ => none
  | line :: rest, i =>
      if containsSub ("salt info".toList) (lowerStr line) ||
         containsSub ("sidewalk info".toList) (lowerStr line) then
        some (i, line)
      else findSaltLineAux rest (i + 1)

/-- The salt_line / salt_index pair of _populate_salt_info. -/
def findSaltLine (lines : List Str) : Option (Nat × Str) := findSaltLineAux lines 0

/-- The candidate text the salt pattern is searched in: the salt line when
one exists, else the whole line list joined by spaces. -/
def saltCandidate (lines : List Str) : Str :=
  match findSaltLine lines with
  | some r => r.2
  | none => joinSpace lines

/-- The scan of the up-to-three lines after the salt line: the first line
with a quantity match supplies the backfill values. -/
def backfillScan : List Str → Option (Str × Option Str)
  | [] => none
  | l :: rest =>
      match findQuantity l with
      | some q => some q
      | none => backfillScan rest

/-- _populate_salt_info: search the candidate for the product pattern and
assign all three groups; if the amount or the unit was found, stop; else,
when a salt line exists, backfill the still-unset amount and unit from the
first quantity match within the next three lines. -/
def populateSaltInfo (fields : ExtractedFields) (lines : List Str) : ExtractedFields :=
  let matched := saltSearch (saltCandidate lines)
  let fields1 :=
    match matched with
    | some (p, a, u) =>
        { fields with salt_product := some p, salt_amount := a, salt_unit := u }
    | none => fields
  let finished :=
    match matched with
    | some (_, a, u) => a.isSome || u.isSome
    | none => false
  if finished then fields1
  else
    match findSaltLine lines with
    | none => fields1
    | some (saltIndex, _) =>
        match backfillScan ((lines.drop (saltIndex + 1)).take 3) with
        | none => fields1
        | some (qa, qu) =>
            { fields1 with
              salt_amount := fields1.salt_amount.orElse (fun _ => some qa),
              salt_unit := fields1.salt_unit.orElse (fun _ => qu) }

/-! ## _fallback_site_name -/

/-- The loop of _fallback_site_name over the first five lines: stop at the
first street-looking line, else take the first line with at least two
whitespace-separated tokens. -/
def fallbackSiteNameScan : List Str → Option Str
  | [] => none
  | l :: rest =>
      if (findStreetLine l).isSome then none
      else if 2 ≤ (pySplitWs l).length then some l
      else fallbackSiteNameScan rest

/-- _fallback_site_name. -/
def fallbackSiteName (fields : ExtractedFields) (lines : List Str) : ExtractedFields :=
  if fields.site_name.isSome then fields
  else
    match fallbackSiteNameScan (lines.take 5) with
    | some l => { fields with site_name := some l }
    | none => fields

/-! ## _extract_fields_from_text -/

/-- Set a labeled field only when a truthy (non-empty) value was found: the
value-and-setattr step of the loop over route, site_name and notes. -/
def setIfFound (fields : ExtractedFields) (key : FieldKey) (lines : List Str) :
    ExtractedFields :=
  match extractFieldFromLines lines key with
  | some v =>
      if v.isEmpty then fields
      else
        match key with
        | .route => { fields with route := some v }
        | .site_name => { fields with site_name := some v }
        | .notes => { fields with notes := some v }
        | _ => fields
  | none => fields

/-- _extract_fields_from_text: the full text-to-fields pipeline. -/
def extractFieldsFromText (text : Str) : ExtractedFields :=
  let lines := preprocessLines text
  let abc := extractAddressBlock lines
  let f0 : ExtractedFields :=
    { address := abc.1, city := abc.2.1, postal_code := normalizePostalCode abc.2.2 }
  let f1 := setIfFound f0 .route lines
  let f2 := setIfFound f1 .site_name lines
  let f3 := setIfFound f2 .notes lines
  let f4 :=
    { f3 with
      service_days := extractServiceDays lines,
      time_open := extractTimeValue lines .time_open,
      time_closed := extractTimeValue lines .time_closed }
  let f5 := populateSaltInfo f4 lines
  fallbackSiteName f5 lines

/-! ## _extract_gps_from_image

A GPS coordinate component reaches _convert as a value whose two entries
may or may not convert to numbers.  A component is modelled as none when
float(value[0]) or float(value[1]) raises (so the inner try/except yields
None), and as the pair of exact rationals otherwise; a zero denominator is
modelled explicitly because the ZeroDivisionError it raises is also caught
by the inner except.  The division of a None by the power of sixty inside
the sum generator is NOT guarded by any try/except, and neither is the call
site of _extract_gps_from_image in extract_fields, so it is modelled as a
thrown TypeError carried by Except. -/

/-- One degrees/minutes/seconds rational component as handed to _convert. -/
abbrev RatComp := Option (ℚ × ℚ)

/-- The gps_info mapping of the EXIF data: tag 1 is the latitude reference,
tag 2 the latitude components, tag 3 the longitude reference, tag 4 the
longitude components. -/
structure GpsRaw where
  lat_ref : Option String := none
  lat_values : Option (List RatComp) := none
  lon_ref : Option String := none
  lon_values : Option (List RatComp) := none

/-- The inner _convert helper: float(value[0]) / float(value[1]) with every
exception turned into None. -/
def gpsConvert : RatComp → Option ℚ
  | none => none
  | some (n, d) => if d = 0 then none else some (n / d)

/-- The generator inside sum(...): each component is converted and divided
by sixty to the power of its index; a None coming out of _convert makes the
division raise a TypeError. -/
def gpsSumAux : List RatComp → Nat → Except String ℚ
  | [], _ => .ok 0
  | v :: rest, i =>
      match gpsConvert v with
      | none => .error "TypeError: unsupported operand type for division on None"
      | some q =>
          match gpsSumAux rest (i + 1) with
          | .error e => .error e
          | .ok s => .ok (q / 60 ^ i + s)

/-- The coordinate sum of _extract_gps_from_image. -/
def gpsSum (values : List RatComp) : Except String ℚ := gpsSumAux values 0

/-- _extract_gps_from_image: the argument is none when the image has no EXIF
data or the EXIF data has no GPS entry (both checks return absent-absent);
an empty component list is falsy and also yields absent-absent. -/
def extractGpsFromImage (gps : Option GpsRaw) : Except String (Option ℚ × Option ℚ) :=
  match gps with
  | none => .ok (none, none)
  | some g =>
      match g.lat_values, g.lon_values with
      | some latValues, some lonValues =>
          if latValues.isEmpty || lonValues.isEmpty then .ok (none, none)
          else
            match gpsSum latValues with
            | .error e => .error e
            | .ok lat0 =>
                match gpsSum lonValues with
                | .error e => .error e
                | .ok lon0 =>
                    let lat := if g.lat_ref = some "S" || g.lat_ref = some "s" then -lat0 else lat0
                    let lon := if g.lon_ref = some "W" || g.lon_ref = some "w" then -lon0 else lon0
                    .ok (some lat, some lon)
      | _, _ => .ok (none, none)

/-! ## The job record store (app/services/ingest.py)

One JSON file per job id is modelled as a map from id to the stored record
state.  update_job_status is a no-op when no record exists for the id;
otherwise it overwrites the status, overwrites the error only when the new
error is truthy (a non-empty string), and overwrites the extraction only
when the new extraction is truthy (the payload dicts passed by the
orchestrator are never empty). -/

/-- The orchestrator result dict (the ExtractionResult payload).  Keys that
a given branch of extract_fields does not put into the dict are none. -/
structure ExtractionPayload where
  status : String
  job_id : String
  fields : Option ExtractedFields := none
  ocr_status : Option String := none
  message : Option String := none
  error : Option String := none
  raw_text : Option Str := none
deriving DecidableEq

/-- The mutable part of a stored job record. -/
structure JobState where
  status : String
  error : Option String := none
  extraction : Option ExtractionPayload := none
deriving DecidableEq

/-- The job record store: a record per job id. -/
def Store := String → Option JobState

/-- update_job_status of ingest.py. -/
def updateJobStatus (store : Store) (jobId : String) (status : String)
    (error : Option String) (extraction : Option ExtractionPayload) : Store :=
  match store jobId with
  | none => store
  | some st =>
      fun k =>
        if k = jobId then
          some
            { status := status,
              error := match error with
                | some e => if e = "" then st.error else some e
                | none => st.error,
              extraction := match extraction with
                | some p => some p
                | none => st.extraction }
        else store k

/-! ## extract_fields (the orchestrator)

OCR availability and execution are environment facts injected as an
oracle: the installed-dependency probe, the tesseract binary probe, and the
text that OCR produces for the image on the job record (or the exception it
raises).  The GPS metadata of the opened image is part of the same oracle.
A raised exception escaping extract_fields (only possible from the GPS
decoding, which sits outside the try block) is an .error result, and in
that case no further status write happens. -/

/-- The OCR environment of one invocation. -/
structure OcrEnv where
  missing_dependencies : List String
  tesseract_error : Option String := none
  ocr_text : String → Except String Str
  gps_info : Option GpsRaw := none

/-- The job record dict passed to extract_fields; fields other than the id
and the image path do not influence the orchestrator. -/
structure JobInput where
  id : String
  image_path : Option String := none
  source : String := ""
  metadata : List (String × String) := []

/-- Truthiness of the image path (a missing or empty path is falsy). -/
def truthyPath : Option String → Bool
  | none => false
  | some s => !s.isEmpty

/-- The all-absent ExtractedFields().__dict__ payload of the unavailable
branches. -/
def emptyFields : ExtractedFields := {}

/-- extract_fields of extract.py, returning the payload (or the escaped
exception) together with the store after all persisted writes. -/
def extractFields (env : OcrEnv) (store : Store) (job : JobInput) :
    Except String ExtractionPayload × Store :=
  let jobId := job.id
  let store1 := updateJobStatus store jobId "processing" none none
  if !truthyPath job.image_path then
    let payload : ExtractionPayload :=
      { status := "failed", job_id := jobId, error := some "missing image_path" }
    (.ok payload, updateJobStatus store1 jobId "failed" (some "missing image_path") none)
  else if !env.missing_dependencies.isEmpty then
    let message := "OCR unavailable; missing dependencies: " ++
      String.intercalate ", " env.missing_dependencies
    let payload : ExtractionPayload :=
      { status := "queued", job_id := jobId, fields := some emptyFields,
        ocr_status := some "unavailable", message := some message }
    (.ok payload, updateJobStatus store1 jobId "queued" (some message) (some payload))
  else
    match env.tesseract_error with
    | some message =>
        let payload : ExtractionPayload :=
          { status := "queued", job_id := jobId, fields := some emptyFields,
            ocr_status := some "unavailable", message := some message }
        (.ok payload, updateJobStatus store1 jobId "queued" (some message) (some payload))
    | none =>
        match env.ocr_text ((job.image_path).getD "") with
        | .error e =>
            let payload : ExtractionPayload :=
              { status := "failed", job_id := jobId, error := some e }
            (.ok payload, updateJobStatus store1 jobId "failed" (some e) none)
        | .ok extractedText =>
            let fields0 := extractFieldsFromText extractedText
            match extractGpsFromImage env.gps_info with
            | .error e => (.error e, store1)
            | .ok (lat, lon) =>
                let fields :=
                  { fields0 with gps_latitude := lat, gps_longitude := lon }
                let payload : ExtractionPayload :=
                  { status := "done", job_id := jobId, fields := some fields,
                    raw_text := some extractedText }
                (.ok payload, updateJobStatus store1 jobId "done" none (some payload))

/-! # Theorems about the claims -/

/-- C2: the claim states that the text with the three lines Address: 123
Main St, Springfield and IL 62704 extracts address 123 Main St, city
Springfield and postal code 62704.  It is false: _extract_address_block
discards the inline remainder of the label line and takes the address block
from the following lines instead, so the address becomes Springfield, the
city becomes IL 62704 and no third block line exists to supply a postal
code. -/
theorem C2_label_precedence_counterexample :
    ¬ ((extractFieldsFromText ("Address: 123 Main St\nSpringfield\nIL 62704".toList)).address
          = some ("123 Main St".toList) ∧
       (extractFieldsFromText ("Address: 123 Main St\nSpringfield\nIL 62704".toList)).city
          = some ("Springfield".toList) ∧
       (extractFieldsFromText ("Address: 123 Main St\nSpringfield\nIL 62704".toList)).postal_code
          = some ("62704".toList)) := by
  decide

/-- C2 amended: on the text with lines Address: 123 Main St, Springfield
and IL 62704, the extractor returns address Springfield, city IL 62704 and
an absent postal code: the labeled branch of _extract_address_block ignores
the inline value after the label and uses the first and second following
lines, and with only two following lines no postal line is examined. -/
theorem C2_label_precedence_amended :
    (extractFieldsFromText ("Address: 123 Main St\nSpringfield\nIL 62704".toList)).address
        = some ("Springfield".toList) ∧
    (extractFieldsFromText ("Address: 123 Main St\nSpringfield\nIL 62704".toList)).city
        = some ("IL 62704".toList) ∧
    (extractFieldsFromText ("Address: 123 Main St\nSpringfield\nIL 62704".toList)).postal_code
        = none := by
  decide

/-- C6: the claim states that a text with the line Salt Info, a following
line without digits, and then the line 3 bags yields amount 3, unit bags
and an ABSENT product.  It is false: the line Salt Info itself contains the
product token salt, so the product group captures Salt. -/
theorem C6_salt_backfill_counterexample :
    ¬ ((extractFieldsFromText ("Salt Info\nAmount\n3 bags".toList)).salt_amount
          = some ("3".toList) ∧
       (extractFieldsFromText ("Salt Info\nAmount\n3 bags".toList)).salt_unit
          = some ("bags".toList) ∧
       (extractFieldsFromText ("Salt Info\nAmount\n3 bags".toList)).salt_product
          = none) := by
  decide

/-- C6 amended: the same input yields amount 3 and unit bags via the
backfill scan, but the product is Salt, captured from the Salt Info line
itself (the word salt of the heading is a product token). -/
theorem C6_salt_backfill_amended :
    (extractFieldsFromText ("Salt Info\nAmount\n3 bags".toList)).salt_amount
        = some ("3".toList) ∧
    (extractFieldsFromText ("Salt Info\nAmount\n3 bags".toList)).salt_unit
        = some ("bags".toList) ∧
    (extractFieldsFromText ("Salt Info\nAmount\n3 bags".toList)).salt_product
        = some ("Salt".toList) := by
  decide

/-- C9: the claim states that the line Time Open: 7|00 am normalizes to
7:00AM.  It is false: the vertical bar becomes a space (not a colon), the
colon pattern therefore cannot match, and the bare pattern matches the
digit pair 00 before am, producing 00 AM. -/
theorem C9_time_normalization_counterexample :
    ¬ (extractFieldsFromText ("Time Open: 7|00 am".toList)).time_open
        = some ("7:00AM".toList) := by
  decide

/-- C9 amended: the line Time Open: 7|00 am yields time_open 00 AM: after
replacing the bar with a space the candidate is 7 00 am, the colon pattern
finds no match, and the leftmost match of the bare pattern is 00 am,
formatted as the digits, a space and the upper-cased meridian. -/
theorem C9_time_normalization_amended :
    (extractFieldsFromText ("Time Open: 7|00 am".toList)).time_open
        = some ("00 AM".toList) := by
  decide

/-- C8: the claim states that _normalize_postal_code strips all non-digit
characters and keeps the trailing five digits.  The code instead deletes
occurrences of the literal two-character sequence backslash D (the pattern
was written with a doubled backslash in a raw string) and keeps the
trailing five CHARACTERS, so the input 6270A comes back unchanged where
the claim demands 6270: the code keeps a non-digit.  The variable name
digits in the source shows the stripping of non-digits was the intent, so
this is a defect of the code, not of the claim. -/
theorem C8_postal_normalization_bug :
    normalizePostalCode (some ("6270A".toList)) = some ("6270A".toList) ∧
    stripBackslashD ("6270A".toList) = "6270A".toList := by
  decide

/-- C5: the claim states that the GPS decoder never raises and that a
malformed rational component contributes nothing to the coordinate sum.
In the code, _convert returns None for a malformed component, and the
unguarded division of that None inside the sum generator raises a
TypeError that escapes _extract_gps_from_image (the call site in
extract_fields sits outside the try block).  The inner try/except of
_convert shows degradation was the intent, so this is a defect of the
code: with a single malformed latitude component and a well-formed
longitude list, the decode throws instead of degrading. -/
theorem C5_gps_decoder_raises_bug :
    extractGpsFromImage
        (some { lat_ref := some "N", lat_values := some [none],
                lon_ref := some "W", lon_values := some [some (1, 1)] })
      = .error "TypeError: unsupported operand type for division on None" := by
  rfl

/-- A status write through update_job_status on an existing record succeeds
and leaves a record whose status is the written one. -/
theorem updateJobStatus_self (store : Store) (jobId status : String)
    (error : Option String) (extraction : Option ExtractionPayload) (st : JobState)
    (h : store jobId = some st) :
    updateJobStatus store jobId status error extraction jobId =
      some
        { status := status,
          error := match error with
            | some e => if e = "" then st.error else some e
            | none => st.error,
          extraction := match extraction with
            | some p => some p
            | none => st.extraction } := by
  unfold updateJobStatus
  rw [h]
  simp

/-- C3: when the job record has an image reference but the OCR capability
is unavailable (a missing runtime dependency, or the tesseract probe
raising), extract_fields returns a queued payload with ocr_status
unavailable, all-absent fields and a message, and persists status queued
for the job; running it a second time under (possibly different)
unavailability leaves the persisted status queued again. -/
theorem C3_unavailable_requeues (env1 env2 : OcrEnv) (store : Store)
    (job : JobInput) (st : JobState)
    (himg : truthyPath job.image_path = true)
    (hunav1 : env1.missing_dependencies ≠ [] ∨ env1.tesseract_error ≠ none)
    (hunav2 : env2.missing_dependencies ≠ [] ∨ env2.tesseract_error ≠ none)
    (hex : store job.id = some st) :
    ∃ m1 m2,
      (extractFields env1 store job).1 =
        .ok { status := "queued", job_id := job.id, fields := some emptyFields,
              ocr_status := some "unavailable", message := some m1 } ∧
      ((extractFields env1 store job).2 job.id).map JobState.status = some "queued" ∧
      (extractFields env2 (extractFields env1 store job).2 job).1 =
        .ok { status := "queued", job_id := job.id, fields := some emptyFields,
              ocr_status := some "unavailable", message := some m2 } ∧
      ((extractFields env2 (extractFields env1 store job).2 job).2 job.id).map
          JobState.status = some "queued" := by
  have main : ∀ (env : OcrEnv) (s : Store) (stc : JobState),
      env.missing_dependencies ≠ [] ∨ env.tesseract_error ≠ none →
      s job.id = some stc →
      ∃ m, (extractFields env s job).1 =
          .ok { status := "queued", job_id := job.id, fields := some emptyFields,
                ocr_status := some "unavailable", message := some m } ∧
        ((extractFields env s job).2 job.id).map JobState.status = some "queued" := by
    intro env s stc hunav hs
    have hs1 := updateJobStatus_self s job.id "processing" none none stc hs
    by_cases hdeps : env.missing_dependencies = []
    · obtain ⟨msg, hterr⟩ : ∃ m, env.tesseract_error = some m := by
        rcases hunav with h | h
        · exact absurd hdeps h
        · cases henv : env.tesseract_error with
          | none => exact absurd henv h
          | some m => exact ⟨m, rfl⟩
      refine ⟨msg, ?_, ?_⟩ <;>
        simp [extractFields, himg, hdeps, hterr,
          updateJobStatus_self _ job.id _ _ _ _ hs1]
    · refine ⟨"OCR unavailable; missing dependencies: " ++
        String.intercalate ", " env.missing_dependencies, ?_, ?_⟩ <;>
        simp [extractFields, himg, hdeps,
          updateJobStatus_self _ job.id _ _ _ _ hs1]
  obtain ⟨m1, hres1, hst1⟩ := main env1 store st hunav1 hex
  obtain ⟨st1, hst1'⟩ : ∃ st1, (extractFields env1 store job).2 job.id = some st1 := by
    cases h : (extractFields env1 store job).2 job.id with
    | none => rw [h] at hst1; exact absurd hst1 (by simp)
    | some s => exact ⟨s, rfl⟩
  obtain ⟨m2, hres2, hst2⟩ := main env2 _ st1 hunav2 hst1'
  exact ⟨m1, m2, hres1, hst1, hres2, hst2⟩

/-- A concrete job input for witnesses: an id with an image path present. -/
def wJob : JobInput := { id := "job-1", image_path := some "sheet.jpg" }

/-- A concrete store for witnesses, holding the one queued job record. -/
def wStoreQueued : Store :=
  fun k => if k = "job-1" then some { status := "queued" } else none

/-- A concrete environment whose dependency probe reports pytesseract
missing. -/
def wEnvDeps : OcrEnv :=
  { missing_dependencies := ["pytesseract"], ocr_text := fun _ => .ok [] }

/-- A concrete environment whose dependency probe passes but whose
tesseract probe raises. -/
def wEnvTess : OcrEnv :=
  { missing_dependencies := [],
    tesseract_error := some "tesseract is not installed or it is not in your PATH",
    ocr_text := fun _ => .ok [] }

/-- Witness for C3 at the concrete job, store and unavailable
environments. -/
theorem C3_unavailable_requeues_witness :
    truthyPath wJob.image_path = true ∧
    (wEnvDeps.missing_dependencies ≠ [] ∨ wEnvDeps.tesseract_error ≠ none) ∧
    (wEnvTess.missing_dependencies ≠ [] ∨ wEnvTess.tesseract_error ≠ none) ∧
    wStoreQueued wJob.id = some { status := "queued" } ∧
    (∃ m1 m2,
      (extractFields wEnvDeps wStoreQueued wJob).1 =
        .ok { status := "queued", job_id := wJob.id, fields := some emptyFields,
              ocr_status := some "unavailable", message := some m1 } ∧
      ((extractFields wEnvDeps wStoreQueued wJob).2 wJob.id).map JobState.status
          = some "queued" ∧
      (extractFields wEnvTess (extractFields wEnvDeps wStoreQueued wJob).2 wJob).1 =
        .ok { status := "queued", job_id := wJob.id, fields := some emptyFields,
              ocr_status := some "unavailable", message := some m2 } ∧
      ((extractFields wEnvTess (extractFields wEnvDeps wStoreQueued wJob).2 wJob).2
          wJob.id).map JobState.status = some "queued") :=
  ⟨by decide, Or.inl (by decide), Or.inr (by decide), by rfl,
   C3_unavailable_requeues wEnvDeps wEnvTess wStoreQueued wJob { status := "queued" }
     (by decide) (Or.inl (by decide)) (Or.inr (by decide)) (by rfl)⟩

/-- C4: for every job record whose image reference is missing or empty
(regardless of the other job fields, the environment and the store), the
orchestrator returns the failed payload carrying the error missing
image_path and no fields entry, and persists status failed with that error
on the existing job record. -/
theorem C4_missing_image_path_fails (env : OcrEnv) (store : Store)
    (job : JobInput) (st : JobState)
    (himg : truthyPath job.image_path = false)
    (hex : store job.id = some st) :
    (extractFields env store job).1 =
      .ok { status := "failed", job_id := job.id, error := some "missing image_path" } ∧
    ((extractFields env store job).2 job.id).map JobState.status = some "failed" ∧
    ((extractFields env store job).2 job.id).bind JobState.error =
      some "missing image_path" := by
  have hs1 := updateJobStatus_self store job.id "processing" none none st hex
  refine ⟨?_, ?_, ?_⟩ <;>
    simp [extractFields, himg, updateJobStatus_self _ job.id _ _ _ _ hs1]

/-- A concrete job input without an image path. -/
def wJobNoImage : JobInput := { id := "job-1" }

/-- Witness for C4 at the concrete imageless job. -/
theorem C4_missing_image_path_fails_witness :
    truthyPath wJobNoImage.image_path = false ∧
    wStoreQueued wJobNoImage.id = some { status := "queued" } ∧
    ((extractFields wEnvTess wStoreQueued wJobNoImage).1 =
      .ok { status := "failed", job_id := wJobNoImage.id,
            error := some "missing image_path" } ∧
    ((extractFields wEnvTess wStoreQueued wJobNoImage).2 wJobNoImage.id).map
        JobState.status = some "failed" ∧
    ((extractFields wEnvTess wStoreQueued wJobNoImage).2 wJobNoImage.id).bind
        JobState.error = some "missing image_path") :=
  ⟨by decide, by rfl,
   C4_missing_image_path_fails wEnvTess wStoreQueued wJobNoImage { status := "queued" }
     (by decide) (by rfl)⟩

/-- C7: the claim states that whenever a product token is found but at
least one of amount and unit is not, the next three lines after the salt
line are scanned to fill in whatever remains unset.  It is false: on the
text Sidewalk Info salt 5 followed by the line 3 bags, the product match
captures the product salt and the amount 5 with no unit; the line 3 bags
right below carries a standalone quantity with the unit bags, yet the
extracted salt unit is absent, because the code stops as soon as the
product match found an amount OR a unit. -/
theorem C7_salt_backfill_scan_counterexample :
    saltSearch (saltCandidate (preprocessLines ("Sidewalk Info salt 5\n3 bags".toList)))
        = some ("salt".toList, some ("5".toList), none) ∧
    findQuantity ("3 bags".toList) = some ("3".toList, some ("bags".toList)) ∧
    (extractFieldsFromText ("Sidewalk Info salt 5\n3 bags".toList)).salt_unit = none := by
  decide

/-- C7 amended: the next-lines scan runs only when the product match found
NEITHER an amount NOR a unit.  First conjunct: when the product match
found an amount or a unit, the salt fields are exactly the three captured
groups and no scan occurs (a still-unset amount or unit stays absent
whatever the following lines hold).  Second conjunct: when both are
missing and a salt line exists, the first quantity match within the next
three lines supplies the amount and (when present beside the number) the
unit, and a text without such a quantity leaves both absent. -/
theorem C7_salt_backfill_scan_amended :
    (∀ (fields : ExtractedFields) (lines : List Str) (p : Str) (a u : Option Str),
       saltSearch (saltCandidate lines) = some (p, a, u) →
       (a.isSome || u.isSome) = true →
       populateSaltInfo fields lines =
         { fields with salt_product := some p, salt_amount := a, salt_unit := u }) ∧
    (∀ (fields : ExtractedFields) (lines : List Str) (p : Str) (i : Nat) (sl : Str),
       saltSearch (saltCandidate lines) = some (p, none, none) →
       findSaltLine lines = some (i, sl) →
       populateSaltInfo fields lines =
         match backfillScan ((lines.drop (i + 1)).take 3) with
         | some (qa, qu) =>
             { fields with salt_product := some p, salt_amount := some qa, salt_unit := qu }
         | none =>
             { fields with salt_product := some p, salt_amount := none, salt_unit := none }) := by
  constructor
  · intro fields lines p a u hmatch hfound
    simp [populateSaltInfo, hmatch, hfound]
  · intro fields lines p i sl hmatch hsalt
    cases hscan : backfillScan ((lines.drop (i + 1)).take 3) with
    | none => simp [populateSaltInfo, hmatch, hsalt, hscan]
    | some q =>
        cases q with
        | mk qa qu => simp [populateSaltInfo, hmatch, hsalt, hscan, Option.orElse]

/-- Witness for C7 at the texts of the counterexample (first conjunct) and
of the salt-backfill fixture (second conjunct). -/
theorem C7_salt_backfill_scan_amended_witness :
    (saltSearch (saltCandidate (preprocessLines ("Sidewalk Info salt 5\n3 bags".toList)))
        = some ("salt".toList, some ("5".toList), none) ∧
     populateSaltInfo {} (preprocessLines ("Sidewalk Info salt 5\n3 bags".toList)) =
       { salt_product := some ("salt".toList), salt_amount := some ("5".toList),
         salt_unit := none }) ∧
    (saltSearch (saltCandidate (preprocessLines ("Salt Info\nAmount\n3 bags".toList)))
        = some ("Salt".toList, none, none) ∧
     findSaltLine (preprocessLines ("Salt Info\nAmount\n3 bags".toList))
        = some (0, "Salt Info".toList) ∧
     populateSaltInfo {} (preprocessLines ("Salt Info\nAmount\n3 bags".toList)) =
       { salt_product := some ("Salt".toList), salt_amount := some ("3".toList),
         salt_unit := some ("bags".toList) }) := by
  constructor
  · refine ⟨by decide, ?_⟩
    have h := C7_salt_backfill_scan_amended.1 {}
      (preprocessLines ("Sidewalk Info salt 5\n3 bags".toList))
      ("salt".toList) (some ("5".toList)) none (by decide) (by decide)
    rw [h]
  · refine ⟨by decide, by decide, ?_⟩
    have h := C7_salt_backfill_scan_amended.2 {}
      (preprocessLines ("Salt Info\nAmount\n3 bags".toList))
      ("Salt".toList) 0 ("Salt Info".toList) (by decide) (by decide)
    rw [h]
    decide

/-- The substring search succeeds exactly when the pattern is a contiguous
sublist. -/
theorem findFrom_isSome_iff (pat s : Str) (b : Nat) :
    (findFrom pat s b).isSome = true ↔ pat <:+: s := by
  induction s generalizing b with
  | nil =>
      simp only [findFrom, List.infix_nil]
      by_cases h : pat.isEmpty
      · simp [h, List.isEmpty_iff.mp h]
      · simp [h]
        exact fun hc => h (by simp [hc])
  | cons c t ih =>
      rw [findFrom]
      by_cases h : pat.isPrefixOf (c :: t)
      · simp only [if_pos h, Option.isSome_some, true_iff]
        exact List.infix_cons_iff.mpr (Or.inl (List.isPrefixOf_iff_prefix.mp h))
      · rw [if_neg h, ih (b + 1)]
        constructor
        · exact fun hi => List.infix_cons_iff.mpr (Or.inr hi)
        · intro hi
          rcases List.infix_cons_iff.mp hi with hp | hi2
          · exact absurd (List.isPrefixOf_iff_prefix.mpr hp) h
          · exact hi2

/-- The substring search returns the index of the LEFTMOST occurrence. -/
theorem findFrom_leftmost (pat : Str) (s : Str) (b j : Nat)
    (h : findFrom pat s b = some j) :
    b ≤ j ∧ pat <+: s.drop (j - b) ∧ ∀ i < j - b, ¬ pat <+: s.drop i := by
  induction s generalizing b with
  | nil =>
      rw [findFrom] at h
      by_cases he : pat.isEmpty
      · rw [if_pos he, Option.some_inj] at h
        subst h
        simp [List.isEmpty_iff.mp he]
      · rw [if_neg he] at h
        exact absurd h (by simp)
  | cons c t ih =>
      rw [findFrom] at h
      by_cases hp : pat.isPrefixOf (c :: t)
      · rw [if_pos hp, Option.some_inj] at h
        subst h
        refine ⟨le_refl _, ?_, ?_⟩
        · simp [List.isPrefixOf_iff_prefix.mp hp]
        · intro i hi
          omega
      · rw [if_neg hp] at h
        obtain ⟨hle, hpre, hmin⟩ := ih (b + 1) h
        refine ⟨by omega, ?_, ?_⟩
        · have : j - b = (j - (b + 1)) + 1 := by omega
          rw [this, List.drop_succ_cons]
          exact hpre
        · intro i hi
          cases i with
          | zero =>
              simp only [List.drop_zero]
              exact fun hc => hp (List.isPrefixOf_iff_prefix.mpr hc)
          | succ i' =>
              rw [List.drop_succ_cons]
              exact hmin i' (by omega)

/-- The simple label search succeeds exactly when the raw substring search
does. -/
theorem labelSearch_isSome_eq (label line : Str) :
    (labelSearch label line).isSome = (findFrom label (lowerStr line) 0).isSome := by
  unfold labelSearch
  cases findFrom label (lowerStr line) 0 <;> rfl

/-- The postal label search succeeds exactly when the raw substring search
for the token zip does. -/
theorem postalLabelSearch_isSome_eq (line : Str) :
    (postalLabelSearch line).isSome =
      (findFrom (labelToken .postal_code) (lowerStr line) 0).isSome := by
  cases h : findFrom (labelToken .postal_code) (lowerStr line) 0 <;>
    simp [postalLabelSearch, h]

/-- The simple label search as an Option.map over the found index. -/
theorem labelSearch_eq_map (label line : Str) :
    labelSearch label line =
      (findFrom label (lowerStr line) 0).map
        (fun j => (line.drop (j + label.length)).dropWhile isLabelSep) := by
  unfold labelSearch
  cases findFrom label (lowerStr line) 0 <;> rfl

/-- C10: label matching is an unanchored case-insensitive substring search.
First conjunct: a field pattern matches a line exactly when the lowered
line contains the label token anywhere (for postal_code the token zip,
shared by both alternatives).  Second conjunct: the index the search
returns is that of the leftmost occurrence.  Third conjunct: for the
simple patterns, the captured value is the remainder of the line after
that leftmost occurrence of the label with the separator run skipped.
Fourth conjunct: every collect-until-next-label operation keeps exactly
the longest prefix of the following lines in which no line matches ANY
field pattern, so any label-containing line terminates an in-progress
collection.  Fifth conjunct: a line need only contain the token inside a
longer word: the single line Rerouted matches the route pattern and yields
the value d (the remainder after the embedded token route). -/
theorem C10_label_substring_semantics :
    (∀ (k : FieldKey) (line : Str),
       ((fieldSearch k line).isSome = true ↔ labelToken k <:+: lowerStr line)) ∧
    (∀ (pat s : Str) (j : Nat), findFrom pat s 0 = some j →
       pat <+: s.drop j ∧ ∀ i < j, ¬ pat <+: s.drop i) ∧
    (∀ (k : FieldKey) (line : Str), k ≠ FieldKey.postal_code →
       fieldSearch k line =
         (findFrom (labelToken k) (lowerStr line) 0).map
           (fun j => (line.drop (j + (labelToken k).length)).dropWhile isLabelSep)) ∧
    (∀ ls : List Str, collectUntilLabel ls = ls.takeWhile (fun l => !stopsAny l)) ∧
    ((∀ line : Str, (stopsAny line = true ↔
        ∃ k : FieldKey, labelToken k <:+: lowerStr line)) ∧
     (extractFieldsFromText ("Rerouted".toList)).route = some ("d".toList)) := by
  have h1 : ∀ (k : FieldKey) (line : Str),
      ((fieldSearch k line).isSome = true ↔ labelToken k <:+: lowerStr line) := by
    intro k line
    cases k <;>
      simp only [fieldSearch] <;>
      rw [← findFrom_isSome_iff _ (lowerStr line) 0] <;>
      first
        | rw [postalLabelSearch_isSome_eq]
        | rw [labelSearch_isSome_eq]
  refine ⟨h1, ?_, ?_, ?_, ?_, by decide⟩
  · intro pat s j h
    obtain ⟨_, hpre, hmin⟩ := findFrom_leftmost pat s 0 j h
    exact ⟨by simpa using hpre, fun i hi => hmin i (by omega)⟩
  · intro k line hk
    cases k with
    | postal_code => exact absurd rfl hk
    | _ => exact labelSearch_eq_map _ line
  · intro ls
    induction ls with
    | nil => rfl
    | cons l rest ih =>
        rw [collectUntilLabel, List.takeWhile_cons]
        by_cases h : stopsAny l
        · simp [h]
        · simp [h, ih]
  · intro line
    rw [stopsAny, List.any_eq_true]
    constructor
    · rintro ⟨k, _, hk⟩
      exact ⟨k, (h1 k line).mp hk⟩
    · rintro ⟨k, hk⟩
      refine ⟨k, ?_, (h1 k line).mpr hk⟩
      cases k <;> simp [allFieldKeys]

/-- Witness for C10 at the concrete line Rerouted: the route token is found
at index 2 (the leftmost, embedded occurrence), and the route pattern
captures the remainder after it. -/
theorem C10_label_substring_semantics_witness :
    (findFrom ("route".toList) (lowerStr ("Rerouted".toList)) 0 = some 2 ∧
     ("route".toList <+: (lowerStr ("Rerouted".toList)).drop 2 ∧
      ∀ i < 2, ¬ "route".toList <+: (lowerStr ("Rerouted".toList)).drop i)) ∧
    (FieldKey.route ≠ FieldKey.postal_code ∧
     fieldSearch .route ("Rerouted".toList) =
       (findFrom (labelToken .route) (lowerStr ("Rerouted".toList)) 0).map
         (fun j => (("Rerouted".toList).drop (j + (labelToken .route).length)).dropWhile
           isLabelSep)) :=
  ⟨⟨by decide, C10_label_substring_semantics.2.1 ("route".toList) _ 2 (by decide)⟩,
   ⟨by decide, C10_label_substring_semantics.2.2.1 .route ("Rerouted".toList) (by decide)⟩⟩

/-! ## Helper lemmas for the totality and non-emptiness claim -/

/-- A string stripping to nothing is all whitespace. -/
theorem pyStrip_eq_nil (l : Str) (h : pyStrip l = []) :
    ∀ c ∈ l, isPySpace c = true := by
  unfold pyStrip at h
  rw [List.reverse_eq_nil_iff, List.dropWhile_eq_nil_iff] at h
  intro c hc
  rw [← List.takeWhile_append_dropWhile (p := isPySpace) (l := l)] at hc
  rcases List.mem_append.mp hc with h1 | h1
  · exact List.mem_takeWhile_imp h1
  · exact h c (List.mem_reverse.mpr h1)

/-- A string with a non-whitespace head strips to a non-empty string. -/
theorem pyStrip_cons_ne_nil (c : Char) (t : Str) (h : isPySpace c = false) :
    pyStrip (c :: t) ≠ [] := by
  intro hc
  have := pyStrip_eq_nil _ hc c (by simp)
  rw [h] at this
  exact Bool.noConfusion this

/-- A whitespace character does not lower-case to a digit. -/
theorem not_space_of_digit_lower (c : Char)
    (h : isAsciiDigit (toLowerChar c) = true) : isPySpace c = false := by
  by_contra hc
  rw [Bool.not_eq_false] at hc
  have hcases : ((((c = ' ' ∨ c = '\t') ∨ c = '\n') ∨ c = '\r') ∨
      c = Char.ofNat 11) ∨ c = Char.ofNat 12 := by
    simpa [isPySpace, Bool.or_eq_true, beq_iff_eq] using hc
  rcases hcases with ((((rfl | rfl) | rfl) | rfl) | rfl) | rfl <;>
    exact absurd h (by decide)

/-- A digit is unchanged by upper-casing and differs from the space
character. -/
theorem digit_upper_ne_space (c : Char) (h : isAsciiDigit c = true) :
    (toUpperChar c != ' ') = true := by
  have hlow : isAsciiLower c = false := by
    by_contra hl
    rw [Bool.not_eq_false] at hl
    unfold isAsciiLower at hl
    unfold isAsciiDigit at h
    rw [Bool.and_eq_true, decide_eq_true_eq, decide_eq_true_eq] at hl h
    exact absurd (le_trans hl.1 h.2) (by decide)
  unfold toUpperChar
  rw [hlow]
  simp only [Bool.false_eq_true, if_false, bne_iff_ne, ne_eq]
  rintro rfl
  exact absurd h (by decide)

/-- A take-while run of positive length exposes a head satisfying the
predicate. -/
theorem takeWhile_head (p : Char → Bool) (l : Str)
    (h : 1 ≤ (l.takeWhile p).length) : ∃ c t, l = c :: t ∧ p c = true := by
  cases l with
  | nil => simp at h
  | cons c t =>
      refine ⟨c, t, rfl, ?_⟩
      by_contra hc
      rw [Bool.not_eq_true] at hc
      rw [List.takeWhile_cons, hc] at h
      simp at h

/-- Collected block lines come from the scanned list. -/
theorem collectUntilLabel_subset : ∀ (ls : List Str) (l : Str),
    l ∈ collectUntilLabel ls → l ∈ ls := by
  intro ls
  induction ls with
  | nil => intro l h; exact absurd h (by simp [collectUntilLabel])
  | cons x rest ih =>
      intro l h
      rw [collectUntilLabel] at h
      by_cases hs : stopsAny x
      · rw [if_pos hs] at h
        exact absurd h (by simp)
      · rw [if_neg hs] at h
        rcases List.mem_cons.mp h with rfl | h2
        · exact List.mem_cons_self _ _
        · exact List.mem_cons_of_mem _ (ih l h2)

/-- Postal-code normalization never produces an empty value. -/
theorem normalizePostalCode_ne_nil (v : Option Str) :
    normalizePostalCode v ≠ some [] := by
  cases v with
  | none => simp [normalizePostalCode]
  | some s =>
      simp only [normalizePostalCode]
      by_cases h1 : s.isEmpty
      · simp [h1]
      · rw [if_neg h1]
        by_cases h2 : ((stripBackslashD s).drop ((stripBackslashD s).length - 5)).isEmpty
        · simp [h2]
        · rw [if_neg h2]
          intro hc
          rw [Option.some_inj] at hc
          rw [hc] at h2
          exact h2 rfl

/-- A found street suffix token has positive length. -/
theorem suffixAt_pos (low : Str) (p tl : Nat) (h : suffixAt low p = some tl) :
    1 ≤ tl := by
  obtain ⟨t, ht, hf⟩ := List.exists_of_findSome?_eq_some h
  split at hf
  · rw [Option.some_inj] at hf
    subst hf
    have : t ≠ [] := by
      simp only [streetSuffixes, List.mem_cons, List.not_mem_nil, or_false] at ht
      rcases ht with rfl | rfl | rfl | rfl | rfl | rfl | rfl | rfl | rfl | rfl |
        rfl | rfl | rfl | rfl <;> decide
    cases t with
    | nil => exact absurd rfl this
    | cons _ _ => simp
  · exact absurd hf (by simp)

/-- The suffix position found by the backtracking scan respects the lower
bound and has a positive token length. -/
theorem findStreetSuffixPos_spec (low : Str) (pmin : Nat) :
    ∀ (q p tl : Nat), findStreetSuffixPos low pmin q = some (p, tl) →
      pmin ≤ p ∧ 1 ≤ tl := by
  intro q
  induction q with
  | zero => intro p tl h; exact absurd h (by simp [findStreetSuffixPos])
  | succ q ih =>
      intro p tl h
      rw [findStreetSuffixPos] at h
      by_cases h1 : q + 1 < pmin
      · rw [if_pos h1] at h
        exact absurd h (by simp)
      · rw [if_neg h1] at h
        cases hg : low.get? q with
        | none =>
            rw [hg] at h
            dsimp only at h
            exact ih p tl h
        | some c =>
            rw [hg] at h
            dsimp only at h
            by_cases h2 : (!isWordChar c) = true
            · rw [if_pos h2] at h
              cases hs : suffixAt low (q + 1) with
              | none =>
                  rw [hs] at h
                  exact ih p tl h
              | some tl2 =>
                  rw [hs] at h
                  rw [Option.some_inj, Prod.mk.injEq] at h
                  obtain ⟨rfl, rfl⟩ := h
                  exact ⟨by omega, suffixAt_pos low _ _ hs⟩
            · rw [if_neg h2] at h
              exact ih p tl h

/-- A successful street match at start i begins with at least two digits
and ends strictly after i. -/
theorem streetMatchEndAt_spec (low : Str) (i e : Nat)
    (h : streetMatchEndAt low i = some e) :
    2 ≤ ((low.drop i).takeWhile isAsciiDigit).length ∧ i + 1 ≤ e := by
  simp only [streetMatchEndAt] at h
  set r := ((low.drop i).takeWhile isAsciiDigit).length with hr
  set w := ((low.drop (i + r)).takeWhile isPySpace).length with hw
  by_cases h1 : r < 2 ∨ 5 < r
  · rw [if_pos h1] at h
    exact absurd h (by simp)
  · rw [if_neg h1] at h
    by_cases h2 : w = 0
    · rw [if_pos h2] at h
      exact absurd h (by simp)
    · rw [if_neg h2] at h
      have hwpos : 1 ≤ w := by omega
      cases hf : findStreetSuffixPos low (if 2 ≤ w then i + r + w else i + r + w + 1)
          low.length with
      | none =>
          rw [hf] at h
          exact absurd h (by simp)
      | some pr =>
          obtain ⟨p, tl⟩ := pr
          rw [hf] at h
          obtain ⟨hp, htl⟩ := findStreetSuffixPos_spec low _ _ _ _ hf
          have hpi : i + r + w ≤ p := by
            by_cases hcase : 2 ≤ w
            · rw [if_pos hcase] at hp; omega
            · rw [if_neg hcase] at hp; omega
          have hre : 2 ≤ r := by omega
          refine ⟨hre, ?_⟩
          rw [Option.some_inj] at h
          subst h
          split <;> split <;> omega

/-- A street-line match is never the empty string. -/
theorem findStreetLine_ne_nil (line m : Str) (h : findStreetLine line = some m) :
    m ≠ [] := by
  unfold findStreetLine at h
  suffices haux : ∀ (rem : List Char) (i : Nat),
      findStreetAux line (lowerStr line) rem i = some m → m ≠ [] from haux line 0 h
  intro rem
  induction rem with
  | nil => intro i h'; exact absurd h' (by simp [findStreetAux])
  | cons c0 rest ih =>
      intro i h'
      rw [findStreetAux] at h'
      cases he : streetMatchEndAt (lowerStr line) i with
      | none =>
          rw [he] at h'
          exact ih (i + 1) h'
      | some e =>
          rw [he] at h'
          rw [Option.some_inj] at h'
          obtain ⟨hr, hie⟩ := streetMatchEndAt_spec _ _ _ he
          obtain ⟨c1, t1, hdrop, hdig⟩ := takeWhile_head _ _ (le_trans (by omega) hr)
          have hmap : (lowerStr line).drop i = (line.drop i).map toLowerChar := by
            rw [lowerStr, ← List.map_drop]
          rw [hmap] at hdrop
          cases hld : line.drop i with
          | nil => rw [hld] at hdrop; exact absurd hdrop (by simp)
          | cons d0 d1 =>
              rw [hld] at hdrop
              rw [List.map_cons, List.cons.injEq] at hdrop
              have hdig0 : isAsciiDigit (toLowerChar d0) = true := by
                rw [hdrop.1]; exact hdig
              have hsp : isPySpace d0 = false := not_space_of_digit_lower _ hdig0
              have htake : (line.drop i).take (e - i) = d0 :: d1.take (e - i - 1) := by
                rw [hld]
                cases hei : e - i with
                | zero => omega
                | succ n => simp
              rw [htake] at h'
              rw [← h']
              exact pyStrip_cons_ne_nil _ _ hsp

/-- A colon-pattern time match starts with a digit. -/
theorem timeColonAt_good (s m : Str) (h : timeColonAt s = some m) :
    ∃ a t, m = a :: t ∧ isAsciiDigit a = true := by
  unfold timeColonAt at h
  dsimp only at h
  split at h
  · rename_i r heq
    rw [Option.some_inj] at h
    subst h
    split at heq
    · split at heq
      · split at heq
        · split at heq
          · rw [Option.some_inj] at heq
            refine ⟨_, _, heq.symm, ?_⟩
            simp_all [Bool.and_eq_true]
          · exact absurd heq (by simp)
        · exact absurd heq (by simp)
      · exact absurd heq (by simp)
    · exact absurd heq (by simp)
  · split at h
    · split at h
      · split at h
        · split at h
          · rw [Option.some_inj] at h
            refine ⟨_, _, h.symm, ?_⟩
            simp_all [Bool.and_eq_true]
          · exact absurd h (by simp)
        · exact absurd h (by simp)
      · exact absurd h (by simp)
    · exact absurd h (by simp)

/-- The leftmost colon-pattern match starts with a digit. -/
theorem findTimeColon_good (s m : Str) (h : findTimeColon s = some m) :
    ∃ a t, m = a :: t ∧ isAsciiDigit a = true := by
  induction s with
  | nil => exact absurd h (by simp [findTimeColon])
  | cons c rest ih =>
      rw [findTimeColon] at h
      cases hc : timeColonAt (c :: rest) with
      | some r =>
          rw [hc] at h
          rw [Option.some_inj] at h
          subst h
          exact timeColonAt_good _ _ hc
      | none =>
          rw [hc] at h
          exact ih h

/-- Upper-casing then deleting spaces keeps a leading digit. -/
theorem upper_filter_ne_nil (a : Char) (r : Str) (h : isAsciiDigit a = true) :
    (upperStr (a :: r)).filter (fun c => c != ' ') ≠ [] := by
  simp only [upperStr, List.map_cons, List.filter_cons, digit_upper_ne_space a h]
  simp

/-- Time normalization never produces an empty value. -/
theorem normalizeTimeValue_ne_nil (value v : Str)
    (h : normalizeTimeValue value = some v) : v ≠ [] := by
  unfold normalizeTimeValue at h
  dsimp only at h
  cases hc : findTimeColon (timeCleaned value) with
  | some m =>
      rw [hc] at h
      rw [Option.some_inj] at h
      obtain ⟨a, t, rfl, hd⟩ := findTimeColon_good _ _ hc
      rw [← h]
      exact upper_filter_ne_nil a t hd
  | none =>
      rw [hc] at h
      cases hb : findTimeBare (timeCleaned value) with
      | some g =>
          obtain ⟨g1, g2⟩ := g
          rw [hb] at h
          rw [Option.some_inj] at h
          rw [← h]
          cases g1 <;> simp
      | none =>
          rw [hb] at h
          by_cases he : (pyStrip (timeCleaned value)).isEmpty
          · rw [if_pos he] at h
            exact absurd h (by simp)
          · rw [if_neg he] at h
            rw [Option.some_inj] at h
            rw [← h]
            intro hc2
            rw [hc2] at he
            exact he rfl

/-- The time-field scan never produces an empty value. -/
theorem extractTimeAux_ne_nil (key : FieldKey) (lines : List Str) :
    ∀ (rem : List Str) (i : Nat) (v : Str),
      extractTimeAux key lines rem i = some v → v ≠ [] := by
  intro rem
  induction rem with
  | nil => intro i v h; exact absurd h (by simp [extractTimeAux])
  | cons line rest ih =>
      intro i v h
      rw [extractTimeAux] at h
      cases hf : fieldSearch key line with
      | some g1 =>
          rw [hf] at h
          dsimp only at h
          cases hv : (pyStrip g1).isEmpty with
          | false =>
              rw [hv] at h
              simp only [Bool.not_false, if_true] at h
              exact normalizeTimeValue_ne_nil _ _ h
          | true =>
              rw [hv] at h
              simp only [Bool.not_true, Bool.false_eq_true, if_false] at h
              cases hn : lines.get? (i + 1) with
              | some nextLine =>
                  rw [hn] at h
                  exact normalizeTimeValue_ne_nil _ _ h
              | none =>
                  rw [hn] at h
                  exact ih (i + 1) v h
      | none =>
          rw [hf] at h
          exact ih (i + 1) v h

/-- A weekday-abbreviation match is non-empty. -/
theorem dayAt_ne_nil (s d : Str) (h : dayAt s = some d) : d ≠ [] := by
  obtain ⟨t, ht, hf⟩ := List.exists_of_findSome?_eq_some h
  split at hf
  · rename_i hpre
    rw [Option.some_inj] at hf
    subst hf
    have hlen : t.length ≤ s.length := by
      have := List.IsPrefix.length_le (List.isPrefixOf_iff_prefix.mp hpre)
      simpa [lowerStr] using this
    have ht3 : t.length = 3 := by
      simp only [dayTokens, List.mem_cons, List.not_mem_nil, or_false] at ht
      rcases ht with rfl | rfl | rfl | rfl | rfl | rfl | rfl <;> rfl
    cases s with
    | nil => rw [ht3] at hlen; simp at hlen
    | cons c cs => simp
  · exact absurd hf (by simp)

/-- The leftmost weekday match is non-empty. -/
theorem findDay_ne_nil (s : Str) (d rest2 : Str)
    (h : findDay s = some (d, rest2)) : d ≠ [] := by
  induction s with
  | nil => exact absurd h (by simp [findDay])
  | cons c t ih =>
      rw [findDay] at h
      cases hd : dayAt (c :: t) with
      | some d0 =>
          rw [hd] at h
          rw [Option.some_inj, Prod.mk.injEq] at h
          obtain ⟨rfl, rfl⟩ := h
          exact dayAt_ne_nil _ _ hd
      | none =>
          rw [hd] at h
          exact ih h

/-- Title-casing a non-empty string is non-empty. -/
theorem pyTitleAux_cons_ne_nil (b : Bool) (c : Char) (t : Str) :
    pyTitleAux b (c :: t) ≠ [] := by
  simp [pyTitleAux]

/-- The service-days value is never empty. -/
theorem serviceDaysValue_ne_nil (candidate v : Str)
    (h : serviceDaysValue candidate = some v) : v ≠ [] := by
  unfold serviceDaysValue at h
  cases hd : findDay candidate with
  | none => rw [hd] at h; exact absurd h (by simp)
  | some pr =>
      obtain ⟨d1, rest⟩ := pr
      rw [hd] at h
      dsimp only at h
      have hd1 : d1 ≠ [] := findDay_ne_nil _ _ _ hd
      have hgen : ∀ w, pyTitle d1 = w → w ≠ [] := by
        intro w hw
        cases d1 with
        | nil => exact absurd rfl hd1
        | cons c t =>
            rw [← hw]
            exact pyTitleAux_cons_ne_nil _ _ _
      split at h
      · split at h
        · rw [Option.some_inj] at h
          rw [← h]
          cases d1 with
          | nil => simp [pyTitle, pyTitleAux]
          | cons c t => simp only [pyTitle, List.cons_append]; exact pyTitleAux_cons_ne_nil _ _ _
        · rw [Option.some_inj] at h
          exact hgen v h
      · rw [Option.some_inj] at h
        exact hgen v h

/-- The service-days scan never produces an empty value. -/
theorem extractServiceDaysAux_ne_nil (lines : List Str) :
    ∀ (rem : List Str) (i : Nat) (v : Str),
      extractServiceDaysAux lines rem i = some v → v ≠ [] := by
  intro rem
  induction rem with
  | nil => intro i v h; exact absurd h (by simp [extractServiceDaysAux])
  | cons line rest ih =>
      intro i v h
      rw [extractServiceDaysAux] at h
      by_cases hf : (fieldSearch .service_days line).isSome
      · rw [if_pos hf] at h
        cases hn : lines.get? (i + 1) with
        | some candidate =>
            rw [hn] at h
            dsimp only at h
            cases hs : serviceDaysValue candidate with
            | some w =>
                rw [hs] at h
                rw [Option.some_inj] at h
                subst h
                exact serviceDaysValue_ne_nil _ _ hs
            | none =>
                rw [hs] at h
                exact ih (i + 1) v h
        | none =>
            rw [hn] at h
            exact ih (i + 1) v h
      · rw [if_neg hf] at h
        exact ih (i + 1) v h

/-- A token match (product or unit) is non-empty. -/
theorem tokenAt_ne_nil (tokens : List Str) (hts : ∀ t ∈ tokens, t ≠ [])
    (s p r : Str) (h : tokenAt tokens s = some (p, r)) : p ≠ [] := by
  obtain ⟨t, ht, hf⟩ := List.exists_of_findSome?_eq_some h
  split at hf
  · rename_i hpre
    rw [Option.some_inj, Prod.mk.injEq] at hf
    obtain ⟨rfl, rfl⟩ := hf
    have hlen : t.length ≤ s.length := by
      simpa [lowerStr] using
        List.IsPrefix.length_le (List.isPrefixOf_iff_prefix.mp hpre)
    have htpos : 1 ≤ t.length := by
      cases t with
      | nil => exact absurd rfl (hts [] ht)
      | cons _ _ => simp
    cases s with
    | nil => simp only [List.length_nil] at hlen; omega
    | cons c cs =>
        cases htl : t.length with
        | zero => omega
        | succ n => simp
  · exact absurd hf (by simp)

/-- The amount captured by the number pattern is non-empty. -/
theorem numberAt_fst_ne_nil (s a : Str) (h : (numberAt s).1 = some a) : a ≠ [] := by
  unfold numberAt at h
  dsimp only at h
  split at h
  · exact absurd h (by simp)
  · rename_i hds
    split at h
    · split at h
      · dsimp only at h
        rw [Option.some_inj] at h
        rw [← h]
        intro hc
        rw [hc] at hds
        exact hds rfl
      · dsimp only at h
        rw [Option.some_inj] at h
        rw [← h]
        intro hc
        rw [List.append_assoc, List.append_eq_nil] at hc
        exact absurd hc.2 (by simp)
    · dsimp only at h
      rw [Option.some_inj] at h
      rw [← h]
      intro hc
      rw [hc] at hds
      exact hds rfl

/-- The groups of a successful salt-pattern search are non-empty. -/
theorem saltSearch_spec (candidate : Str) (p : Str) (a u : Option Str)
    (h : saltSearch candidate = some (p, a, u)) :
    p ≠ [] ∧ (∀ x, a = some x → x ≠ []) ∧ (∀ y, u = some y → y ≠ []) := by
  have hprod : ∀ (s q r : Str), findProduct s = some (q, r) → q ≠ [] := by
    intro s
    induction s with
    | nil => intro q r h'; exact absurd h' (by simp [findProduct])
    | cons c t ih =>
        intro q r h'
        rw [findProduct] at h'
        cases htok : tokenAt productTokens (c :: t) with
        | some pr =>
            rw [htok] at h'
            rw [Option.some_inj] at h'
            subst h'
            exact tokenAt_ne_nil productTokens
              (by intro x hx
                  simp only [productTokens, List.mem_cons, List.not_mem_nil, or_false] at hx
                  rcases hx with rfl | rfl | rfl <;> simp) _ _ _ htok
        | none =>
            rw [htok] at h'
            exact ih q r h'
  unfold saltSearch at h
  cases hp : findProduct candidate with
  | none => rw [hp] at h; exact absurd h (by simp)
  | some pr =>
      obtain ⟨product, rest⟩ := pr
      rw [hp] at h
      dsimp only at h
      rw [Option.some_inj, Prod.mk.injEq, Prod.mk.injEq] at h
      obtain ⟨rfl, rfl, rfl⟩ := h
      refine ⟨hprod _ _ _ hp, ?_, ?_⟩
      · intro x hx
        exact numberAt_fst_ne_nil _ _ hx
      · intro y hy
        rw [Option.map_eq_some'] at hy
        obtain ⟨pr2, hpr2, rfl⟩ := hy
        obtain ⟨p2, r2⟩ := pr2
        exact tokenAt_ne_nil unitTokens
          (by intro x hx
              simp only [unitTokens, List.mem_cons, List.not_mem_nil, or_false] at hx
              rcases hx with rfl | rfl <;> simp) _ _ _ hpr2

/-- The groups of a successful standalone quantity search are non-empty. -/
theorem findQuantity_spec (l : Str) (qa : Str) (qu : Option Str)
    (h : findQuantity l = some (qa, qu)) :
    qa ≠ [] ∧ (∀ y, qu = some y → y ≠ []) := by
  induction l with
  | nil => exact absurd h (by simp [findQuantity])
  | cons c t ih =>
      rw [findQuantity] at h
      by_cases hc : isAsciiDigit c = true
      · rw [if_pos hc] at h
        dsimp only at h
        rw [Option.some_inj, Prod.mk.injEq] at h
        obtain ⟨rfl, rfl⟩ := h
        constructor
        · cases ha : (numberAt (c :: t)).1 with
          | some a0 =>
              simp only [Option.getD_some]
              exact numberAt_fst_ne_nil _ _ ha
          | none =>
              exfalso
              unfold numberAt at ha
              dsimp only at ha
              split at ha
              · rename_i hempty
                rw [List.takeWhile_cons, hc] at hempty
                simp at hempty
              · split at ha
                · split at ha <;> simp at ha
                · simp at ha
        · intro y hy
          rw [Option.map_eq_some'] at hy
          obtain ⟨pr2, hpr2, rfl⟩ := hy
          obtain ⟨p2, r2⟩ := pr2
          exact tokenAt_ne_nil unitTokens
            (by intro x hx
                simp only [unitTokens, List.mem_cons, List.not_mem_nil, or_false] at hx
                rcases hx with rfl | rfl <;> simp) _ _ _ hpr2
      · rw [if_neg hc] at h
        exact ih h

/-- The backfill scan propagates quantity non-emptiness. -/
theorem backfillScan_spec (ls : List Str) (qa : Str) (qu : Option Str)
    (h : backfillScan ls = some (qa, qu)) :
    qa ≠ [] ∧ (∀ y, qu = some y → y ≠ []) := by
  induction ls with
  | nil => exact absurd h (by simp [backfillScan])
  | cons l rest ih =>
      rw [backfillScan] at h
      cases hq : findQuantity l with
      | some q =>
          rw [hq] at h
          rw [Option.some_inj] at h
          subst h
          exact findQuantity_spec _ _ _ hq
      | none =>
          rw [hq] at h
          exact ih h

/-- The salt pass only rewrites the three salt fields, and any value it
writes that is not inherited from the input fields is non-empty. -/
theorem populateSaltInfo_spec (fields : ExtractedFields) (lines : List Str) :
    ∃ p a u, populateSaltInfo fields lines =
        { fields with salt_product := p, salt_amount := a, salt_unit := u } ∧
      (p = fields.salt_product ∨ ∀ x, p = some x → x ≠ []) ∧
      (a = fields.salt_amount ∨ ∀ x, a = some x → x ≠ []) ∧
      (u = fields.salt_unit ∨ ∀ y, u = some y → y ≠ []) := by
  have hid : ({ fields with salt_product := fields.salt_product, salt_amount := fields.salt_amount, salt_unit := fields.salt_unit }) = fields := by
    cases fields
    rfl
  unfold populateSaltInfo
  cases hm : saltSearch (saltCandidate lines) with
  | none =>
      dsimp only
      cases hs : findSaltLine lines with
      | none =>
          exact ⟨_, _, _, hid.symm, Or.inl rfl, Or.inl rfl, Or.inl rfl⟩
      | some isl =>
          obtain ⟨si, sl⟩ := isl
          dsimp only
          cases hb : backfillScan ((lines.drop (si + 1)).take 3) with
          | none =>
              exact ⟨_, _, _, hid.symm, Or.inl rfl, Or.inl rfl, Or.inl rfl⟩
          | some q =>
              obtain ⟨qa, qu⟩ := q
              obtain ⟨hqa, hqu⟩ := backfillScan_spec _ _ _ hb
              refine ⟨fields.salt_product,
                fields.salt_amount.orElse (fun _ => some qa),
                fields.salt_unit.orElse (fun _ => qu), rfl, Or.inl rfl, ?_, ?_⟩
              · cases hfa : fields.salt_amount with
                | some y => exact Or.inl (by simp [Option.orElse])
                | none =>
                    refine Or.inr ?_
                    intro x hx
                    simp only [Option.orElse, Option.some_inj] at hx
                    rw [← hx]
                    exact hqa
              · cases hfu : fields.salt_unit with
                | some y => exact Or.inl (by simp [Option.orElse])
                | none =>
                    refine Or.inr ?_
                    intro y hy
                    simp only [Option.orElse] at hy
                    exact hqu y hy
  | some pau =>
      obtain ⟨p0, a0, u0⟩ := pau
      obtain ⟨hp0, ha0, hu0⟩ := saltSearch_spec _ _ _ _ hm
      dsimp only
      by_cases hfin : (a0.isSome || u0.isSome) = true
      · rw [if_pos hfin]
        refine ⟨some p0, a0, u0, rfl, Or.inr ?_, Or.inr ha0, Or.inr hu0⟩
        intro x hx
        rw [Option.some_inj] at hx
        rw [← hx]
        exact hp0
      · rw [if_neg hfin]
        have ha0n : a0 = none := by cases a0 <;> simp_all
        have hu0n : u0 = none := by cases u0 <;> simp_all
        subst ha0n
        subst hu0n
        cases hs : findSaltLine lines with
        | none =>
            refine ⟨some p0, none, none, rfl, Or.inr ?_, Or.inr ha0, Or.inr hu0⟩
            intro x hx
            rw [Option.some_inj] at hx
            rw [← hx]
            exact hp0
        | some isl =>
            obtain ⟨si, sl⟩ := isl
            dsimp only
            cases hb : backfillScan ((lines.drop (si + 1)).take 3) with
            | none =>
                refine ⟨some p0, none, none, rfl, Or.inr ?_, Or.inr ha0, Or.inr hu0⟩
                intro x hx
                rw [Option.some_inj] at hx
                rw [← hx]
                exact hp0
            | some q =>
                obtain ⟨qa, qu⟩ := q
                obtain ⟨hqa, hqu⟩ := backfillScan_spec _ _ _ hb
                refine ⟨some p0, some qa, qu, by simp [Option.orElse], Or.inr ?_,
                  Or.inr ?_, Or.inr hqu⟩
                · intro x hx
                  rw [Option.some_inj] at hx
                  rw [← hx]
                  exact hp0
                · intro x hx
                  rw [Option.some_inj] at hx
                  rw [← hx]
                  exact hqa

/-- The site-name fallback scan picks a scanned line. -/
theorem fallbackSiteNameScan_mem : ∀ (ls : List Str) (l : Str),
    fallbackSiteNameScan ls = some l → l ∈ ls := by
  intro ls
  induction ls with
  | nil => intro l h; exact absurd h (by simp [fallbackSiteNameScan])
  | cons x rest ih =>
      intro l h
      rw [fallbackSiteNameScan] at h
      by_cases h1 : (findStreetLine x).isSome
      · rw [if_pos h1] at h
        exact absurd h (by simp)
      · rw [if_neg h1] at h
        by_cases h2 : 2 ≤ (pySplitWs x).length
        · rw [if_pos h2] at h
          rw [Option.some_inj] at h
          subst h
          exact List.mem_cons_self _ _
        · rw [if_neg h2] at h
          exact List.mem_cons_of_mem _ (ih l h)

/-- The site-name fallback only rewrites site_name, and a value it writes
that is not inherited comes from the line list. -/
theorem fallbackSiteName_spec (fields : ExtractedFields) (lines : List Str) :
    ∃ o, fallbackSiteName fields lines = { fields with site_name := o } ∧
      (o = fields.site_name ∨ ∃ l ∈ lines, o = some l) := by
  have hid : ({ fields with site_name := fields.site_name }) = fields := by
    cases fields
    rfl
  unfold fallbackSiteName
  by_cases hs : fields.site_name.isSome
  · rw [if_pos hs]
    exact ⟨fields.site_name, hid.symm, Or.inl rfl⟩
  · rw [if_neg hs]
    cases hscan : fallbackSiteNameScan (lines.take 5) with
    | none => exact ⟨fields.site_name, hid.symm, Or.inl rfl⟩
    | some l =>
        exact ⟨some l, rfl,
          Or.inr ⟨l, List.mem_of_mem_take (fallbackSiteNameScan_mem _ _ hscan), rfl⟩⟩

/-- The labeled-field assignment step only rewrites the field of its key
(route, site_name or notes), and only with a non-empty value. -/
theorem setIfFound_spec (fields : ExtractedFields) (lines : List Str) :
    (∃ o, setIfFound fields .route lines = { fields with route := o } ∧
       (o = fields.route ∨ ∀ x, o = some x → x ≠ [])) ∧
    (∃ o, setIfFound fields .site_name lines = { fields with site_name := o } ∧
       (o = fields.site_name ∨ ∀ x, o = some x → x ≠ [])) ∧
    (∃ o, setIfFound fields .notes lines = { fields with notes := o } ∧
       (o = fields.notes ∨ ∀ x, o = some x → x ≠ [])) := by
  refine ⟨?_, ?_, ?_⟩
  all_goals
    unfold setIfFound
  · cases hf : extractFieldFromLines lines .route with
    | none => exact ⟨fields.route, by cases fields; rfl, Or.inl rfl⟩
    | some v =>
        dsimp only
        by_cases hv : v.isEmpty = true
        · rw [if_pos hv]
          exact ⟨fields.route, by cases fields; rfl, Or.inl rfl⟩
        · rw [if_neg hv]
          refine ⟨some v, rfl, Or.inr ?_⟩
          intro x hx
          rw [Option.some_inj] at hx
          rw [← hx]
          intro hc
          rw [hc] at hv
          exact hv rfl
  · cases hf : extractFieldFromLines lines .site_name with
    | none => exact ⟨fields.site_name, by cases fields; rfl, Or.inl rfl⟩
    | some v =>
        dsimp only
        by_cases hv : v.isEmpty = true
        · rw [if_pos hv]
          exact ⟨fields.site_name, by cases fields; rfl, Or.inl rfl⟩
        · rw [if_neg hv]
          refine ⟨some v, rfl, Or.inr ?_⟩
          intro x hx
          rw [Option.some_inj] at hx
          rw [← hx]
          intro hc
          rw [hc] at hv
          exact hv rfl
  · cases hf : extractFieldFromLines lines .notes with
    | none => exact ⟨fields.notes, by cases fields; rfl, Or.inl rfl⟩
    | some v =>
        dsimp only
        by_cases hv : v.isEmpty = true
        · rw [if_pos hv]
          exact ⟨fields.notes, by cases fields; rfl, Or.inl rfl⟩
        · rw [if_neg hv]
          refine ⟨some v, rfl, Or.inr ?_⟩
          intro x hx
          rw [Option.some_inj] at hx
          rw [← hx]
          intro hc
          rw [hc] at hv
          exact hv rfl

/-- Every preprocessed line is non-empty. -/
theorem preprocessLines_ne_nil (text : Str) : ∀ l ∈ preprocessLines text, l ≠ [] := by
  intro l hl
  unfold preprocessLines at hl
  rw [List.mem_filter] at hl
  intro hc
  rw [hc] at hl
  simpa using hl.2

/-- The address-block scan produces an address that is a scanned line or a
non-empty street match, and a city that is a scanned line. -/
theorem extractAddressBlockAux_spec (lines : List Str) : ∀ (rem : List Str) (i : Nat),
    ((extractAddressBlockAux lines rem i).1 = none ∨
     (∃ l ∈ lines, (extractAddressBlockAux lines rem i).1 = some l) ∨
     (∃ m, (extractAddressBlockAux lines rem i).1 = some m ∧ m ≠ [])) ∧
    ((extractAddressBlockAux lines rem i).2.1 = none ∨
     ∃ l ∈ lines, (extractAddressBlockAux lines rem i).2.1 = some l) := by
  intro rem
  induction rem with
  | nil => intro i; simp [extractAddressBlockAux]
  | cons line rest ih =>
      intro i
      rw [extractAddressBlockAux]
      by_cases ha : (fieldSearch .address line).isSome = true
      · rw [if_pos ha]
        dsimp only
        have hblock : ∀ l ∈ collectBlockLines lines (i + 1), l ∈ lines := by
          intro l hl
          exact List.mem_of_mem_drop (collectUntilLabel_subset _ _ hl)
        constructor
        · cases hh : (collectBlockLines lines (i + 1)).head? with
          | none => exact Or.inl rfl
          | some l =>
              exact Or.inr (Or.inl
                ⟨l, hblock l (List.mem_of_mem_head? (by simp [hh])), rfl⟩)
        · cases hg : (collectBlockLines lines (i + 1)).get? 1 with
          | none => exact Or.inl rfl
          | some l => exact Or.inr ⟨l, hblock l (List.get?_mem hg), rfl⟩
      · rw [if_neg ha]
        cases hstreet : findStreetLine line with
        | some a0 =>
            dsimp only
            constructor
            · exact Or.inr (Or.inr ⟨a0, rfl, findStreetLine_ne_nil _ _ hstreet⟩)
            · cases hg : lines.get? (i + 1) with
              | none => exact Or.inl rfl
              | some l => exact Or.inr ⟨l, List.get?_mem hg, rfl⟩
        | none => exact ih (i + 1)

/-- The address-block result, phrased on the wrapper. -/
theorem extractAddressBlock_spec (lines : List Str) :
    ((extractAddressBlock lines).1 = none ∨
     (∃ l ∈ lines, (extractAddressBlock lines).1 = some l) ∨
     (∃ m, (extractAddressBlock lines).1 = some m ∧ m ≠ [])) ∧
    ((extractAddressBlock lines).2.1 = none ∨
     ∃ l ∈ lines, (extractAddressBlock lines).2.1 = some l) :=
  extractAddressBlockAux_spec lines lines 0

/-- C1: the Text Field Extractor is a total function (its embedding is a
Lean function, so termination holds by construction) and, for EVERY input
text, each extracted field is either absent or a non-empty string; the GPS
fields are never set by the text extractor; and the empty input yields the
all-absent record. -/
theorem C1_extractor_total_and_nonempty :
    (∀ text : Str,
      (extractFieldsFromText text).route ≠ some [] ∧
      (extractFieldsFromText text).site_name ≠ some [] ∧
      (extractFieldsFromText text).address ≠ some [] ∧
      (extractFieldsFromText text).city ≠ some [] ∧
      (extractFieldsFromText text).postal_code ≠ some [] ∧
      (extractFieldsFromText text).service_days ≠ some [] ∧
      (extractFieldsFromText text).time_open ≠ some [] ∧
      (extractFieldsFromText text).time_closed ≠ some [] ∧
      (extractFieldsFromText text).notes ≠ some [] ∧
      (extractFieldsFromText text).salt_product ≠ some [] ∧
      (extractFieldsFromText text).salt_amount ≠ some [] ∧
      (extractFieldsFromText text).salt_unit ≠ some [] ∧
      (extractFieldsFromText text).gps_latitude = none ∧
      (extractFieldsFromText text).gps_longitude = none) ∧
    extractFieldsFromText [] = ({} : ExtractedFields) := by
  have conv : ∀ (o : Option Str), (o = none ∨ ∀ x, o = some x → x ≠ []) → o ≠ some [] := by
    rintro o (rfl | h) hc
    · exact Option.noConfusion hc
    · exact h [] hc rfl
  constructor
  · intro text
    set lines := preprocessLines text with hlines
    have hmem : ∀ l ∈ lines, l ≠ [] := by rw [hlines]; exact preprocessLines_ne_nil text
    set f0 : ExtractedFields := { address := (extractAddressBlock lines).1, city := (extractAddressBlock lines).2.1, postal_code := normalizePostalCode (extractAddressBlock lines).2.2 } with hf0
    have hpipe : extractFieldsFromText text = fallbackSiteName (populateSaltInfo { setIfFound (setIfFound (setIfFound f0 .route lines) .site_name lines) .notes lines with service_days := extractServiceDays lines, time_open := extractTimeValue lines .time_open, time_closed := extractTimeValue lines .time_closed } lines) lines := rfl
    rw [hpipe]
    obtain ⟨o1, h1, ho1⟩ := (setIfFound_spec f0 lines).1
    rw [h1]
    obtain ⟨o2, h2, ho2⟩ := (setIfFound_spec { f0 with route := o1 } lines).2.1
    rw [h2]
    obtain ⟨o3, h3, ho3⟩ := (setIfFound_spec { { f0 with route := o1 } with site_name := o2 } lines).2.2
    rw [h3]
    obtain ⟨p, a, u, h5, hp, ha, hu⟩ := populateSaltInfo_spec { { { { f0 with route := o1 } with site_name := o2 } with notes := o3 } with service_days := extractServiceDays lines, time_open := extractTimeValue lines .time_open, time_closed := extractTimeValue lines .time_closed } lines
    rw [h5]
    obtain ⟨o6, h6, ho6⟩ := fallbackSiteName_spec { { { { { f0 with route := o1 } with site_name := o2 } with notes := o3 } with service_days := extractServiceDays lines, time_open := extractTimeValue lines .time_open, time_closed := extractTimeValue lines .time_closed } with salt_product := p, salt_amount := a, salt_unit := u } lines
    rw [h6]
    simp only [hf0] at ho1 ho2 ho3 hp ha hu ho6
    dsimp only
    refine ⟨conv o1 ho1, ?_, ?_, ?_, normalizePostalCode_ne_nil _, ?_, ?_, ?_,
      conv o3 ho3, conv p hp, conv a ha, conv u hu, rfl, rfl⟩
    · rcases ho6 with h6a | ⟨l, hl, rfl⟩
      · rw [h6a]
        exact conv o2 ho2
      · intro hc
        exact hmem l hl (Option.some_inj.mp hc)
    · rcases (extractAddressBlock_spec lines).1 with hfn | ⟨l, hl, heq⟩ | ⟨m, heq, hm⟩
      · rw [hfn]
        simp
      · rw [heq]
        intro hc
        exact hmem l hl (Option.some_inj.mp hc)
      · rw [heq]
        intro hc
        exact hm (Option.some_inj.mp hc)
    · rcases (extractAddressBlock_spec lines).2 with hfn | ⟨l, hl, heq⟩
      · rw [hfn]
        simp
      · rw [heq]
        intro hc
        exact hmem l hl (Option.some_inj.mp hc)
    · intro hc
      unfold extractServiceDays at hc
      exact extractServiceDaysAux_ne_nil lines lines 0 [] hc rfl
    · intro hc
      unfold extractTimeValue at hc
      exact extractTimeAux_ne_nil .time_open lines lines 0 [] hc rfl
    · intro hc
      unfold extractTimeValue at hc
      exact extractTimeAux_ne_nil .time_closed lines lines 0 [] hc rfl
  · decide

end Hub
